import Mathlib

/-!
# protoc-gen-twirp_typescript: the `pbjs` generator

A shallow embedding of `generator/pbjs/generator.go` and the properties of it
that the specification states.

Conventions of the embedding

* A Go `string` is an immutable sequence of bytes: `GoString := List UInt8`.
  String constants of the source are written `lit "..."`, the UTF-8 bytes of
  the literal.
* Optional (pointer) fields of the protobuf descriptor are `Option` values; the
  nil-safe getters `GetName`, `GetPackage` return the empty string on `none`,
  a plain dereference `*p` of `none` is a run-time panic.
* A Go call ends in one of three ways, see `GenResult`.
* The standard-library functions `strings.Split`, `strings.ToLower`,
  `filepath.Base` are embedded for the arguments the generator passes them.
-/

namespace Pbjs

/-! ## Go strings -/

abbrev Byte := UInt8

abbrev GoString := List Byte

/-- UTF-8 bytes of a string constant of the source. -/
def lit (s : String) : GoString := s.data.flatMap String.utf8EncodeChar

/-- Byte `'.'`. -/
def dot : Byte := 46

/-- Byte `'/'`, the path separator (Unix build of `path/filepath`). -/
def slash : Byte := 47

/-- `strings.Split(s, sep)` for a one-byte separator (the source only splits on
`"."`): all substrings of `s` between occurrences of `sep`, in order. The
result is never empty: a string without `sep` gives the one-element slice
`[s]`, in particular `Split("", ".")` is `[""]`. -/
def Split : GoString → Byte → List GoString
  | [], _ => [[]]
  | c :: cs, sep =>
    if c = sep then [] :: Split cs sep
    else
      match Split cs sep with
      | p :: ps => (c :: p) :: ps
      | [] => [[c]]

/-- `filepath.Base(path)` on Unix: the empty path gives `"."`; trailing
separators are stripped; the last element (what follows the last separator) is
kept; if nothing is left the path was all separators and `"/"` is returned. -/
def Base (path : GoString) : GoString :=
  if path = [] then lit "."
  else
    -- for len(path) > 0 && os.IsPathSeparator(path[len(path)-1]) { path = path[0 : len(path)-1] }
    let path := (path.reverse.dropWhile (fun b => b == slash)).reverse
    -- i := len(path) - 1; for i >= 0 && !os.IsPathSeparator(path[i]) { i-- }; path = path[i+1:]
    let path := (path.reverse.takeWhile (fun b => b != slash)).reverse
    if path = [] then lit "/" else path

/-- `strings.ToLower` applied to a one-byte string `s[0:1]` holding the byte
`c`. For an ASCII byte (`c < 0x80`) an upper-case letter `A`..`Z` is moved to
`a`..`z` and every other byte is kept. A byte `c ≥ 0x80` alone is not valid
UTF-8: `ToLower` goes through `strings.Map`, which decodes it as the
replacement rune U+FFFD and writes that rune's encoding `EF BF BD`. -/
def ToLowerByte (c : Byte) : GoString :=
  if c < 0x80 then
    if 65 ≤ c ∧ c ≤ 90 then [c + 32] else [c]
  else [0xEF, 0xBF, 0xBD]

/-! ## Descriptor and plugin types -/

/-- `descriptor.MethodDescriptorProto`, the field the generator reads. -/
structure MethodDescriptorProto where
  Name : Option GoString
  deriving DecidableEq, Repr

/-- `descriptor.ServiceDescriptorProto`, the fields the generator reads. -/
structure ServiceDescriptorProto where
  Name : Option GoString
  Method : List MethodDescriptorProto
  deriving DecidableEq, Repr

/-- `descriptor.FileDescriptorProto`, the fields the generator reads. -/
structure FileDescriptorProto where
  Name : Option GoString
  Package : Option GoString
  Service : List ServiceDescriptorProto
  deriving DecidableEq, Repr

/-- Nil-safe getter `(*ServiceDescriptorProto).GetName`. -/
def ServiceDescriptorProto.GetName (s : ServiceDescriptorProto) : GoString :=
  s.Name.getD []

/-- Nil-safe getter `(*FileDescriptorProto).GetName`. -/
def FileDescriptorProto.GetName (d : FileDescriptorProto) : GoString :=
  d.Name.getD []

/-- Nil-safe getter `(*FileDescriptorProto).GetPackage`. -/
def FileDescriptorProto.GetPackage (d : FileDescriptorProto) : GoString :=
  d.Package.getD []

/-- `plugin.CodeGeneratorResponse_File`; `Generate` sets both fields through
`proto.String`, so neither pointer is nil in a returned file. -/
structure CodeGeneratorResponse_File where
  Name : GoString
  Content : GoString
  deriving DecidableEq, Repr

/-- How a call of `Generate` ends. -/
inductive GenResult where
  /-- `return files, nil` -/
  | ok (files : List CodeGeneratorResponse_File)
  /-- `return nil, err` -/
  | error
  /-- a run-time panic: the call does not return -/
  | panic
  deriving DecidableEq, Repr

/-! ## Template context (source lines 49-68) -/

structure service where
  Name : GoString
  Methods : List GoString
  Package : GoString
  deriving DecidableEq, Repr

structure tmplContext where
  Services : List service
  Package : GoString
  ImportPath : GoString
  TwirpPrefix : GoString
  deriving DecidableEq, Repr

structure Generator where
  twirpVersion : GoString
  deriving DecidableEq, Repr

def NewGenerator (twirpVersion : GoString) : Generator :=
  { twirpVersion := twirpVersion }

/-! ## Naming helpers (source lines 124-150) -/

/-- `baseName`: `parts[0]` of the base of the file name split on `"."`.
`none` stands for the index-out-of-range panic of `parts[0]`. -/
def baseName (d : FileDescriptorProto) : Option GoString :=
  let n := Base d.GetName
  let parts := Split n dot
  parts[0]?

/-- `outFile`: the same `parts[0]` followed by `".twirp.ts"`. -/
def outFile (d : FileDescriptorProto) : Option GoString :=
  let n := Base d.GetName
  let parts := Split n dot
  match parts[0]? with
  | some p0 => some (p0 ++ lit ".twirp.ts")
  | none => none

/-- `lowerCamel`: `strings.ToLower(s[0:1]) + s[1:]`. Slicing `s[0:1]` of the
empty string panics (slice bounds out of range): `none`. -/
def lowerCamel (s : GoString) : Option GoString :=
  match s with
  | [] => none
  | c :: rest => some (ToLowerByte c ++ rest)

/-- `pbjsImport`: the first part of the package split on `"."`, in braces; the
empty string when there is no part. -/
def pbjsImport (packageName : GoString) : GoString :=
  let parts := Split packageName dot
  match parts with
  | p0 :: _ => lit "\x7b" ++ p0 ++ lit "\x7d"
  | [] => lit ""

/-! ## Template expansion (source lines 14-47, 102-115)

`tmpl` is a constant of the source. `template.Parse` accepts it (both
functions it calls are registered before parsing), so `Execute` below is the
expansion of the parsed template, text node by text node. Trim markers have
been applied to the text nodes: `{{-` removes the white space that ends the
text before it, `-}}` the white space that starts the text after it.
A value of type `string` is written as its bytes. `none` is the error that
`Execute` returns when a called function fails; the buffer written so far is
then dropped by `Generate`. -/

/-- Body of `{{range $m := $s.Methods}}` (template lines 11-13) for one method.
A panic inside a called function such as `lowerCamel` is recovered by the
template engine (`safeCall`, Go 1.12 and later) and returned by `Execute` as an
error. -/
def execMethod (s : service) (m : GoString) : Option GoString :=
  match lowerCamel m with
  | none => none
  | some lc =>
    some (lit "\n\tif (fn === " ++ s.Package ++ lit "." ++ s.Name ++ lit ".prototype." ++ lc
      ++ lit ") \x7b\n\t\treturn '" ++ m ++ lit "';\n    \x7d")

/-- The inner `range` over the methods of one service, in order. -/
def execMethods (s : service) : List GoString → Option GoString
  | [] => some []
  | m :: ms =>
    match execMethod s m with
    | none => none
    | some out =>
      match execMethods s ms with
      | none => none
      | some rest => some (out ++ rest)

/-- The outer `{{range $s := .Services}}` of the resolver (template lines 9-15);
outside the inner `range` its body has white space only, all of it trimmed. -/
def execResolverCases : List service → Option GoString
  | [] => some []
  | s :: ss =>
    match execMethods s s.Methods with
    | none => none
    | some out =>
      match execResolverCases ss with
      | none => none
      | some rest => some (out ++ rest)

/-- Body of the second `{{range .Services}}` (template lines 21-32) for one
service; the line break before `{{- end}}` is trimmed. -/
def execService (twirpPrefix : GoString) (s : service) : GoString :=
  lit "\nexport const " ++ s.Name ++ lit "PathPrefix = '" ++ twirpPrefix ++ lit "/"
    ++ s.Package ++ lit "." ++ s.Name ++ lit "/';\n\nexport const create" ++ s.Name
    ++ lit " = (baseURL: string): " ++ s.Package ++ lit "." ++ s.Name
    ++ lit " => \x7b\n\tconst axios = Axios.create(\x7b\n        baseURL: baseURL + " ++ s.Name
    ++ lit "PathPrefix,\n        headers: \x7b\n          Accept: 'application/protobuf'\n        \x7d\n    \x7d);\n\n    return "
    ++ s.Package ++ lit "." ++ s.Name
    ++ lit ".create(createTwirpAdapter(axios, getServiceMethodName));\n\x7d;"

/-- The second `range` over the services, in order. -/
def execServices (twirpPrefix : GoString) : List service → GoString
  | [] => []
  | s :: ss => execService twirpPrefix s ++ execServices twirpPrefix ss

/-- Template lines 1-4, up to the declaration of `$twirpPrefix`. -/
def execHeader (ctx : tmplContext) : GoString :=
  lit "// Generated by protoc-gen-twirp_typescript. DO NOT EDIT\nimport " ++ pbjsImport ctx.Package
    ++ lit " from './" ++ ctx.ImportPath
    ++ lit ".pb';\nimport \x7bcreateTwirpAdapter\x7d from 'pbjs-twirp';\nimport Axios from 'axios';\n\n"

/-- `t.Execute(b, ctx)`: the content of the buffer, or `none` on error. -/
def Execute (ctx : tmplContext) : Option GoString :=
  let twirpPrefix := ctx.TwirpPrefix
  match execResolverCases ctx.Services with
  | none => none
  | some cases =>
    some (execHeader ctx
      ++ lit "const getServiceMethodName = (fn: any): string => \x7b"
      ++ cases
      ++ lit "\n\n    throw new Error('Unknown Method');\n\x7d;\n\n"
      ++ execServices twirpPrefix ctx.Services
      ++ lit "\n")

/-! ## Generate (source lines 70-122) -/

/-- Lines 95-97: `srv.Methods = append(srv.Methods, *m.Name)` for each method;
`none` is the nil dereference of an absent name. -/
def collectMethods : List MethodDescriptorProto → Option (List GoString)
  | [] => some []
  | m :: ms =>
    match m.Name with
    | none => none
    | some n =>
      match collectMethods ms with
      | none => none
      | some rest => some (n :: rest)

/-- Lines 88-100: one `service` record per declared service, in order. -/
def collectServices (pkg : GoString) : List ServiceDescriptorProto → Option (List service)
  | [] => some []
  | s :: ss =>
    match collectMethods s.Method with
    | none => none
    | some ms =>
      match collectServices pkg ss with
      | none => none
      | some rest => some ({ Name := s.GetName, Methods := ms, Package := pkg } :: rest)

/-- Lines 76-100: the template context of a descriptor that is not skipped;
`none` is a panic (index out of range in `baseName`, nil method name). -/
def buildContext (g : Generator) (d : FileDescriptorProto) : Option tmplContext :=
  let twirpPrefix := if g.twirpVersion = lit "v6" then lit "" else lit "/twirp"
  let pkg := d.GetPackage
  match baseName d with
  | none => none
  | some importPath =>
    match collectServices pkg d.Service with
    | none => none
    | some services =>
      some { Services := services, Package := pkg, ImportPath := importPath,
             TwirpPrefix := twirpPrefix }

/-- `(*Generator).Generate`. -/
def Generate (g : Generator) (d : FileDescriptorProto) : GenResult :=
  match d.Name with
  | none => GenResult.panic
  | some name =>
    if name = lit "google/protobuf/timestamp.proto" then GenResult.ok []
    else
      match buildContext g d with
      | none => GenResult.panic
      | some ctx =>
        match Execute ctx with
        | none => GenResult.error
        | some b =>
          match outFile d with
          | none => GenResult.panic
          | some cfName => GenResult.ok [{ Name := cfName, Content := b }]

/-! ## Concrete inputs used by the examples -/

/-- The end-to-end scenario of the specification: package `example.api`, source
`service.proto`, one service `Greeter` with the method `SayHello`. -/
def greeterFile : FileDescriptorProto :=
  { Name := some (lit "service.proto")
    Package := some (lit "example.api")
    Service := [{ Name := some (lit "Greeter"), Method := [{ Name := some (lit "SayHello") }] }] }

/-- A Timestamp descriptor that nevertheless declares a package and a service. -/
def timestampFile : FileDescriptorProto :=
  { Name := some (lit "google/protobuf/timestamp.proto")
    Package := some (lit "google.protobuf")
    Service := [{ Name := some (lit "Clock"), Method := [{ Name := some (lit "Now") }, { Name := some [] }] }] }

/-- A descriptor whose only method has the empty string as its name. -/
def emptyMethodFile : FileDescriptorProto :=
  { Name := some (lit "a.proto")
    Package := some (lit "p")
    Service := [{ Name := some (lit "S"), Method := [{ Name := some (lit "") }] }] }

/-- A source name with two dots in its last path segment. -/
def twoDotFile : FileDescriptorProto :=
  { Name := some (lit "a.b.proto"), Package := none, Service := [] }

/-- The file expected for `greeterFile` under protocol version `v6`. -/
def greeterOutputV6 : CodeGeneratorResponse_File :=
  { Name := lit "service.twirp.ts"
    Content := lit "// Generated by protoc-gen-twirp_typescript. DO NOT EDIT\nimport \x7bexample\x7d from './service.pb';\nimport \x7bcreateTwirpAdapter\x7d from 'pbjs-twirp';\nimport Axios from 'axios';\n\nconst getServiceMethodName = (fn: any): string => \x7b\n\tif (fn === example.api.Greeter.prototype.sayHello) \x7b\n\t\treturn 'SayHello';\n    \x7d\n\n    throw new Error('Unknown Method');\n\x7d;\n\n\nexport const GreeterPathPrefix = '/example.api.Greeter/';\n\nexport const createGreeter = (baseURL: string): example.api.Greeter => \x7b\n\tconst axios = Axios.create(\x7b\n        baseURL: baseURL + GreeterPathPrefix,\n        headers: \x7b\n          Accept: 'application/protobuf'\n        \x7d\n    \x7d);\n\n    return example.api.Greeter.create(createTwirpAdapter(axios, getServiceMethodName));\n\x7d;\n" }

/-- The file expected for `greeterFile` under protocol version `v5`. -/
def greeterOutputV5 : CodeGeneratorResponse_File :=
  { Name := lit "service.twirp.ts"
    Content := lit "// Generated by protoc-gen-twirp_typescript. DO NOT EDIT\nimport \x7bexample\x7d from './service.pb';\nimport \x7bcreateTwirpAdapter\x7d from 'pbjs-twirp';\nimport Axios from 'axios';\n\nconst getServiceMethodName = (fn: any): string => \x7b\n\tif (fn === example.api.Greeter.prototype.sayHello) \x7b\n\t\treturn 'SayHello';\n    \x7d\n\n    throw new Error('Unknown Method');\n\x7d;\n\n\nexport const GreeterPathPrefix = '/twirp/example.api.Greeter/';\n\nexport const createGreeter = (baseURL: string): example.api.Greeter => \x7b\n\tconst axios = Axios.create(\x7b\n        baseURL: baseURL + GreeterPathPrefix,\n        headers: \x7b\n          Accept: 'application/protobuf'\n        \x7d\n    \x7d);\n\n    return example.api.Greeter.create(createTwirpAdapter(axios, getServiceMethodName));\n\x7d;\n" }

/-- The template context of `greeterFile` with a given path prefix. -/
def greeterContext (twirpPrefix : GoString) : tmplContext :=
  { Services := [{ Name := lit "Greeter", Methods := [lit "SayHello"], Package := lit "example.api" }]
    Package := lit "example.api"
    ImportPath := lit "service"
    TwirpPrefix := twirpPrefix }

/-- The lower-case form of an ASCII byte, taken from `Char.toLower`. -/
def lowerCaseForm (b : Byte) : Byte := (Char.ofNat b.toNat).toLower.toNat.toUInt8

/-- The specification's wording of the base name in its testable property on
output names: the source name with its final extension removed, that is, with
the last `"."` and what follows it dropped (a name without `"."` is kept). -/
def withoutFinalExtension (name : GoString) : GoString :=
  if dot ∈ name then (name.reverse.dropWhile (fun b => b != dot)).reverse.dropLast
  else name

/-- The part of a string before its first `"."`, all of it when it has none. -/
def beforeFirstDot (s : GoString) : GoString := s.takeWhile (fun b => b != dot)

/-- The `service` record that lines 88-100 build for a declared service whose
method names are all present. -/
def serviceOf (pkg : GoString) (s : ServiceDescriptorProto) : service :=
  { Name := s.GetName, Methods := s.Method.map (fun m => m.Name.getD []), Package := pkg }

/-- The value of `twirpPrefix` after lines 76-79. -/
def twirpPrefixOf (g : Generator) : GoString :=
  if g.twirpVersion = lit "v6" then lit "" else lit "/twirp"

/-- The ordering scenario of the specification: service `A` with the methods
`X`, `Y` and service `B` with the method `Z`. -/
def orderFile : FileDescriptorProto :=
  { Name := some (lit "order.proto")
    Package := some (lit "demo")
    Service :=
      [{ Name := some (lit "A"), Method := [{ Name := some (lit "X") }, { Name := some (lit "Y") }] },
       { Name := some (lit "B"), Method := [{ Name := some (lit "Z") }] }] }

/-- The file expected for `orderFile` under protocol version `v5`. -/
def orderOutput : CodeGeneratorResponse_File :=
  { Name := lit "order.twirp.ts"
    Content := lit "// Generated by protoc-gen-twirp_typescript. DO NOT EDIT\nimport \x7bdemo\x7d from './order.pb';\nimport \x7bcreateTwirpAdapter\x7d from 'pbjs-twirp';\nimport Axios from 'axios';\n\nconst getServiceMethodName = (fn: any): string => \x7b\n\tif (fn === demo.A.prototype.x) \x7b\n\t\treturn 'X';\n    \x7d\n\tif (fn === demo.A.prototype.y) \x7b\n\t\treturn 'Y';\n    \x7d\n\tif (fn === demo.B.prototype.z) \x7b\n\t\treturn 'Z';\n    \x7d\n\n    throw new Error('Unknown Method');\n\x7d;\n\n\nexport const APathPrefix = '/twirp/demo.A/';\n\nexport const createA = (baseURL: string): demo.A => \x7b\n\tconst axios = Axios.create(\x7b\n        baseURL: baseURL + APathPrefix,\n        headers: \x7b\n          Accept: 'application/protobuf'\n        \x7d\n    \x7d);\n\n    return demo.A.create(createTwirpAdapter(axios, getServiceMethodName));\n\x7d;\nexport const BPathPrefix = '/twirp/demo.B/';\n\nexport const createB = (baseURL: string): demo.B => \x7b\n\tconst axios = Axios.create(\x7b\n        baseURL: baseURL + BPathPrefix,\n        headers: \x7b\n          Accept: 'application/protobuf'\n        \x7d\n    \x7d);\n\n    return demo.B.create(createTwirpAdapter(axios, getServiceMethodName));\n\x7d;\n" }

/-- The template context of `orderFile` under protocol version `v5`. -/
def orderContext : tmplContext :=
  { Services := [{ Name := lit "A", Methods := [lit "X", lit "Y"], Package := lit "demo" },
                 { Name := lit "B", Methods := [lit "Z"], Package := lit "demo" }]
    Package := lit "demo"
    ImportPath := lit "order"
    TwirpPrefix := lit "/twirp" }

/-- A service whose two methods differ only in the case of the first letter. -/
def caseFile : FileDescriptorProto :=
  { Name := some (lit "case.proto")
    Package := some (lit "p")
    Service := [{ Name := some (lit "S"), Method := [{ Name := some (lit "Foo") }, { Name := some (lit "foo") }] }] }

/-- The `service` record of `caseFile`. -/
def caseService : service :=
  { Name := lit "S", Methods := [lit "Foo", lit "foo"], Package := lit "p" }

/-- The file expected for `caseFile` under protocol version `v6`. -/
def caseOutput : CodeGeneratorResponse_File :=
  { Name := lit "case.twirp.ts"
    Content := lit "// Generated by protoc-gen-twirp_typescript. DO NOT EDIT\nimport \x7bp\x7d from './case.pb';\nimport \x7bcreateTwirpAdapter\x7d from 'pbjs-twirp';\nimport Axios from 'axios';\n\nconst getServiceMethodName = (fn: any): string => \x7b\n\tif (fn === p.S.prototype.foo) \x7b\n\t\treturn 'Foo';\n    \x7d\n\tif (fn === p.S.prototype.foo) \x7b\n\t\treturn 'foo';\n    \x7d\n\n    throw new Error('Unknown Method');\n\x7d;\n\n\nexport const SPathPrefix = '/p.S/';\n\nexport const createS = (baseURL: string): p.S => \x7b\n\tconst axios = Axios.create(\x7b\n        baseURL: baseURL + SPathPrefix,\n        headers: \x7b\n          Accept: 'application/protobuf'\n        \x7d\n    \x7d);\n\n    return p.S.create(createTwirpAdapter(axios, getServiceMethodName));\n\x7d;\n" }

/-- A descriptor without services whose source file is named `if (fn ===.proto`. -/
def needleFile : FileDescriptorProto :=
  { Name := some (lit "if (fn ===.proto"), Package := none, Service := [] }

/-- The file expected for `needleFile` under protocol version `v6`. -/
def needleOutput : CodeGeneratorResponse_File :=
  { Name := lit "if (fn ===.twirp.ts"
    Content := lit "// Generated by protoc-gen-twirp_typescript. DO NOT EDIT\nimport \x7b\x7d from './if (fn ===.pb';\nimport \x7bcreateTwirpAdapter\x7d from 'pbjs-twirp';\nimport Axios from 'axios';\n\nconst getServiceMethodName = (fn: any): string => \x7b\n\n    throw new Error('Unknown Method');\n\x7d;\n\n\n" }

/-- The (service, method) pairs of a descriptor, service by service in
declaration order and, within a service, method by method in declaration
order. -/
def methodPairs (d : FileDescriptorProto) : List (GoString × GoString) :=
  d.Service.flatMap (fun s => s.Method.map (fun m => (s.GetName, m.Name.getD [])))

/-- The comparison of the resolver for the method `sm.2` of the service `sm.1`
in package `pkg` (template lines 11-13): the test
`if (fn === <pkg>.<service>.prototype.<lowerCamel method>)` and the
`return '<method>';` that it guards. -/
def comparisonText (pkg : GoString) (sm : GoString × GoString) : GoString :=
  lit "\n\tif (fn === " ++ pkg ++ lit "." ++ sm.1 ++ lit ".prototype." ++ (lowerCamel sm.2).getD []
    ++ lit ") \x7b\n\t\treturn '" ++ sm.2 ++ lit "';\n    \x7d"

/-- The target that the comparison for method `m` of the service record `s`
compares `fn` with: `<Package>.<Name>.prototype.<lowerCamel m>`. -/
def comparisonTarget (s : service) (m : GoString) : Option GoString :=
  match lowerCamel m with
  | none => none
  | some lc => some (s.Package ++ lit "." ++ s.Name ++ lit ".prototype." ++ lc)

/-- The name is not empty and its first byte is an ASCII character. -/
def beginsWithASCII (m : GoString) : Bool :=
  match m with
  | [] => false
  | c :: _ => decide (c < 128)

/-- Two names agree up to the case of their first (ASCII) character. -/
def sameUpToInitialCase (a b : GoString) : Prop :=
  a.head?.map lowerCaseForm = b.head?.map lowerCaseForm ∧ a.tail = b.tail

instance (a b : GoString) : Decidable (sameUpToInitialCase a b) := by
  unfold sameUpToInitialCase
  exact inferInstance

/-- The text of the resolver function `getServiceMethodName` with the given
comparisons in its body, up to and including the line break after `};`. -/
def resolverText (cases : GoString) : GoString :=
  lit "const getServiceMethodName = (fn: any): string => \x7b" ++ cases
    ++ lit "\n\n    throw new Error('Unknown Method');\n\x7d;\n"

/-- The export of the constant `<S>PathPrefix` (template line 21). -/
def pathPrefixExport (twirpPrefix pkg s : GoString) : GoString :=
  lit "export const " ++ s ++ lit "PathPrefix = '" ++ twirpPrefix ++ lit "/" ++ pkg ++ lit "."
    ++ s ++ lit "/';"

/-- The export of the factory `create<S>` (template lines 23-32). -/
def factoryExport (pkg s : GoString) : GoString :=
  lit "export const create" ++ s ++ lit " = (baseURL: string): " ++ pkg ++ lit "." ++ s
    ++ lit " => \x7b\n\tconst axios = Axios.create(\x7b\n        baseURL: baseURL + " ++ s
    ++ lit "PathPrefix,\n        headers: \x7b\n          Accept: 'application/protobuf'\n        \x7d\n    \x7d);\n\n    return "
    ++ pkg ++ lit "." ++ s
    ++ lit ".create(createTwirpAdapter(axios, getServiceMethodName));\n\x7d;"

/-- The block of one service after the resolver: a line break, the constant,
an empty line, the factory. -/
def serviceBlock (twirpPrefix pkg s : GoString) : GoString :=
  lit "\n" ++ pathPrefixExport twirpPrefix pkg s ++ lit "\n\n" ++ factoryExport pkg s

/-! ## Lemmas on the library functions -/

theorem Split_ne_nil (s : GoString) (sep : Byte) : Split s sep ≠ [] := by
  induction s with
  | nil => simp [Split]
  | cons c cs ih =>
    unfold Split
    split
    · simp
    · split <;> simp

theorem Split_head (s : GoString) (sep : Byte) :
    (Split s sep)[0]? = some (s.takeWhile (fun b => b != sep)) := by
  induction s with
  | nil => simp [Split]
  | cons c cs ih =>
    unfold Split
    by_cases h : c = sep
    · simp [h]
    · simp only [h, if_false]
      cases hs : Split cs sep with
      | nil => exact absurd hs (Split_ne_nil cs sep)
      | cons p ps =>
        rw [hs] at ih
        simp at ih
        simp [List.takeWhile_cons, h, ih]

theorem Split_eq_cons (s : GoString) (sep : Byte) :
    ∃ ps, Split s sep = s.takeWhile (fun b => b != sep) :: ps := by
  have h := Split_head s sep
  cases hs : Split s sep with
  | nil => exact absurd hs (Split_ne_nil s sep)
  | cons p ps =>
    rw [hs] at h
    simp at h
    exact ⟨ps, by rw [h]⟩

theorem baseName_eq (d : FileDescriptorProto) :
    baseName d = some (beforeFirstDot (Base d.GetName)) := by
  simp [baseName, Split_head, beforeFirstDot]

theorem outFile_eq (d : FileDescriptorProto) :
    outFile d = some (beforeFirstDot (Base d.GetName) ++ lit ".twirp.ts") := by
  simp [outFile, Split_head, beforeFirstDot]

theorem pbjsImport_eq (p : GoString) :
    pbjsImport p = lit "\x7b" ++ beforeFirstDot p ++ lit "\x7d" := by
  obtain ⟨ps, h⟩ := Split_eq_cons p dot
  simp [pbjsImport, h, beforeFirstDot]

theorem Base_segment (dir seg : GoString) (hne : seg ≠ []) (hs : slash ∉ seg) :
    Base seg = seg ∧ Base (dir ++ slash :: seg) = seg := by
  have hall : ∀ b ∈ seg.reverse, (b != slash) = true := by
    intro b hb
    have hb2 : b ∈ seg := List.mem_reverse.mp hb
    simp only [bne_iff_ne, ne_eq]
    rintro rfl
    exact hs hb2
  have hdrop : ∀ r : GoString,
      (seg.reverse ++ r).dropWhile (fun b => b == slash) = seg.reverse ++ r := by
    intro r
    cases hrev : seg.reverse with
    | nil => exact absurd (List.reverse_eq_nil_iff.mp hrev) hne
    | cons a t =>
      have ha : (a != slash) = true := hall a (by rw [hrev]; exact List.mem_cons_self _ _)
      have ha2 : ¬ ((a == slash) = true) := by
        simpa [bne_iff_ne] using ha
      rw [List.cons_append, List.dropWhile_cons]
      simp [ha2]
  have htake : ∀ r : GoString,
      (seg.reverse ++ slash :: r).takeWhile (fun b => b != slash) = seg.reverse := by
    intro r
    rw [List.takeWhile_append_of_pos hall]
    simp
  have htake0 : seg.reverse.takeWhile (fun b => b != slash) = seg.reverse := by
    have h : (seg.reverse ++ []).takeWhile (fun b => b != slash)
        = seg.reverse ++ ([] : GoString).takeWhile (fun b => b != slash) :=
      List.takeWhile_append_of_pos hall
    simpa using h
  constructor
  · have h0 := hdrop []
    simp only [List.append_nil] at h0
    simp [Base, hne, h0, htake0]
  · have h1 := hdrop (slash :: dir.reverse)
    have h2 := htake dir.reverse
    simp [Base, h1, h2, hne]

/-! ## Lemmas on the generator -/

theorem collectMethods_eq_some {ms : List MethodDescriptorProto} {ns : List GoString}
    (h : collectMethods ms = some ns) : ns = ms.map (fun m => m.Name.getD []) := by
  induction ms generalizing ns with
  | nil => simp [collectMethods] at h; simp [h]
  | cons m ms ih =>
    unfold collectMethods at h
    cases hm : m.Name with
    | none => simp [hm] at h
    | some n =>
      cases hr : collectMethods ms with
      | none => simp [hm, hr] at h
      | some rest =>
        simp [hm, hr] at h
        simp [← h, hm, ih hr]

theorem collectMethods_isSome {ms : List MethodDescriptorProto}
    (h : ∀ m ∈ ms, ∃ n, m.Name = some n) : ∃ ns, collectMethods ms = some ns := by
  induction ms with
  | nil => exact ⟨[], rfl⟩
  | cons m ms ih =>
    obtain ⟨n, hn⟩ := h m (List.mem_cons_self _ _)
    obtain ⟨rest, hrest⟩ := ih (fun x hx => h x (List.mem_cons_of_mem _ hx))
    simp [collectMethods, hn, hrest]

theorem collectServices_eq_some {pkg : GoString} {ss : List ServiceDescriptorProto}
    {rs : List service} (h : collectServices pkg ss = some rs) :
    rs = ss.map (serviceOf pkg) := by
  induction ss generalizing rs with
  | nil => simp [collectServices] at h; simp [h]
  | cons s ss ih =>
    unfold collectServices at h
    cases hm : collectMethods s.Method with
    | none => simp [hm] at h
    | some ms =>
      cases hr : collectServices pkg ss with
      | none => simp [hm, hr] at h
      | some rest =>
        simp [hm, hr] at h
        simp [← h, ih hr, serviceOf, collectMethods_eq_some hm]

theorem collectServices_isSome (pkg : GoString) {ss : List ServiceDescriptorProto}
    (h : ∀ s ∈ ss, ∀ m ∈ s.Method, ∃ n, m.Name = some n) :
    ∃ rs, collectServices pkg ss = some rs := by
  induction ss with
  | nil => exact ⟨[], rfl⟩
  | cons s ss ih =>
    obtain ⟨ms, hms⟩ := collectMethods_isSome (h s (List.mem_cons_self _ _))
    obtain ⟨rest, hrest⟩ := ih (fun x hx => h x (List.mem_cons_of_mem _ hx))
    simp [collectServices, hms, hrest]

theorem buildContext_eq_some {g : Generator} {d : FileDescriptorProto} {ctx : tmplContext}
    (h : buildContext g d = some ctx) :
    ctx = { Services := d.Service.map (serviceOf d.GetPackage)
            Package := d.GetPackage
            ImportPath := beforeFirstDot (Base d.GetName)
            TwirpPrefix := twirpPrefixOf g } := by
  unfold buildContext at h
  simp only [baseName_eq] at h
  cases hs : collectServices d.GetPackage d.Service with
  | none => simp [hs] at h
  | some rs =>
    simp [hs] at h
    simp [← h, collectServices_eq_some hs, twirpPrefixOf]

theorem buildContext_isSome (g : Generator) (d : FileDescriptorProto)
    (h : ∀ s ∈ d.Service, ∀ m ∈ s.Method, ∃ n, m.Name = some n) :
    ∃ ctx, buildContext g d = some ctx := by
  obtain ⟨rs, hrs⟩ := collectServices_isSome d.GetPackage h
  simp [buildContext, baseName_eq, hrs]

theorem execMethods_isSome (s : service) {ms : List GoString} (h : ∀ m ∈ ms, m ≠ []) :
    ∃ out, execMethods s ms = some out := by
  induction ms with
  | nil => exact ⟨[], rfl⟩
  | cons m ms ih =>
    obtain ⟨rest, hrest⟩ := ih (fun x hx => h x (List.mem_cons_of_mem _ hx))
    have hm := h m (List.mem_cons_self _ _)
    cases m with
    | nil => exact absurd rfl hm
    | cons c cs => simp [execMethods, execMethod, lowerCamel, hrest]

theorem execResolverCases_isSome {rs : List service} (h : ∀ r ∈ rs, ∀ m ∈ r.Methods, m ≠ []) :
    ∃ out, execResolverCases rs = some out := by
  induction rs with
  | nil => exact ⟨[], rfl⟩
  | cons r rs ih =>
    obtain ⟨rest, hrest⟩ := ih (fun x hx => h x (List.mem_cons_of_mem _ hx))
    obtain ⟨out, hout⟩ := execMethods_isSome r (h r (List.mem_cons_self _ _))
    simp [execResolverCases, hout, hrest]

theorem Execute_eq_some {ctx : tmplContext} {b : GoString} (h : Execute ctx = some b) :
    ∃ cases, execResolverCases ctx.Services = some cases ∧
      b = execHeader ctx ++ lit "const getServiceMethodName = (fn: any): string => \x7b"
        ++ cases ++ lit "\n\n    throw new Error('Unknown Method');\n\x7d;\n\n"
        ++ execServices ctx.TwirpPrefix ctx.Services ++ lit "\n" := by
  unfold Execute at h
  cases hc : execResolverCases ctx.Services with
  | none => simp [hc] at h
  | some cases =>
    simp only [hc, Option.some.injEq] at h
    exact ⟨cases, rfl, h.symm⟩

theorem Generate_not_skipped {g : Generator} {d : FileDescriptorProto} {name : GoString}
    (hn : d.Name = some name) (hts : name ≠ lit "google/protobuf/timestamp.proto") :
    Generate g d =
      match buildContext g d with
      | none => GenResult.panic
      | some ctx =>
        match Execute ctx with
        | none => GenResult.error
        | some b =>
          GenResult.ok [{ Name := beforeFirstDot (Base d.GetName) ++ lit ".twirp.ts", Content := b }] := by
  simp only [Generate, hn, hts, if_false, outFile_eq]

theorem Generate_ok_one {g : Generator} {d : FileDescriptorProto} {name : GoString}
    {fs : List CodeGeneratorResponse_File}
    (hn : d.Name = some name) (hts : name ≠ lit "google/protobuf/timestamp.proto")
    (h : Generate g d = GenResult.ok fs) :
    ∃ ctx b, buildContext g d = some ctx ∧ Execute ctx = some b ∧
      fs = [{ Name := beforeFirstDot (Base d.GetName) ++ lit ".twirp.ts", Content := b }] := by
  rw [Generate_not_skipped hn hts] at h
  cases hc : buildContext g d with
  | none => simp [hc] at h
  | some ctx =>
    cases he : Execute ctx with
    | none => simp [hc, he] at h
    | some b =>
      simp [hc, he] at h
      exact ⟨ctx, b, rfl, he, h.symm⟩

theorem beforeFirstDot_spec (s : GoString) :
    ∃ rest, s = beforeFirstDot s ++ rest ∧ dot ∉ beforeFirstDot s ∧
      (rest = [] ∨ ∃ r, rest = dot :: r) := by
  induction s with
  | nil => exact ⟨[], by simp [beforeFirstDot]⟩
  | cons c cs ih =>
    obtain ⟨rest, h1, h2, h3⟩ := ih
    by_cases hc : c = dot
    · exact ⟨c :: cs, by simp [beforeFirstDot, hc]⟩
    · refine ⟨rest, ?_, ?_, h3⟩
      · have : beforeFirstDot (c :: cs) = c :: beforeFirstDot cs := by
          simp [beforeFirstDot, List.takeWhile_cons, hc]
        rw [this, List.cons_append, ← h1]
      · have : beforeFirstDot (c :: cs) = c :: beforeFirstDot cs := by
          simp [beforeFirstDot, List.takeWhile_cons, hc]
        rw [this]
        simp only [List.mem_cons, not_or]
        exact ⟨fun h => hc h.symm, h2⟩

theorem Generate_ok_cons {g : Generator} {d : FileDescriptorProto}
    {f : CodeGeneratorResponse_File} {fs : List CodeGeneratorResponse_File}
    (h : Generate g d = GenResult.ok (f :: fs)) :
    ∃ name, d.Name = some name ∧ name ≠ lit "google/protobuf/timestamp.proto" := by
  cases hn : d.Name with
  | none => simp [Generate, hn] at h
  | some name =>
    refine ⟨name, rfl, ?_⟩
    intro hts
    simp [Generate, hn, hts] at h

theorem Generate_ok_singleton {g : Generator} {d : FileDescriptorProto}
    {f : CodeGeneratorResponse_File} (h : Generate g d = GenResult.ok [f]) :
    ∃ ctx b, buildContext g d = some ctx ∧ Execute ctx = some b ∧
      f = { Name := beforeFirstDot (Base d.GetName) ++ lit ".twirp.ts", Content := b } := by
  obtain ⟨name, hn, hts⟩ := Generate_ok_cons h
  obtain ⟨ctx, b, hc, he, hfs⟩ := Generate_ok_one hn hts h
  exact ⟨ctx, b, hc, he, by simpa using hfs⟩

theorem execHeader_import_infix (ctx : tmplContext) :
    (lit "from './" ++ ctx.ImportPath ++ lit ".pb';") <:+: execHeader ctx := by
  have h1 : lit " from './" = lit " " ++ lit "from './" := by decide
  have h2 : lit ".pb';\nimport \x7bcreateTwirpAdapter\x7d from 'pbjs-twirp';\nimport Axios from 'axios';\n\n"
      = lit ".pb';" ++ lit "\nimport \x7bcreateTwirpAdapter\x7d from 'pbjs-twirp';\nimport Axios from 'axios';\n\n" := by
    decide!
  refine ⟨lit "// Generated by protoc-gen-twirp_typescript. DO NOT EDIT\nimport "
      ++ pbjsImport ctx.Package ++ lit " ",
    lit "\nimport \x7bcreateTwirpAdapter\x7d from 'pbjs-twirp';\nimport Axios from 'axios';\n\n", ?_⟩
  simp only [execHeader, h1, h2, List.append_assoc]

theorem execHeader_infix_Execute {ctx : tmplContext} {b : GoString} (h : Execute ctx = some b) :
    execHeader ctx <:+: b := by
  obtain ⟨cases, _, hb⟩ := Execute_eq_some h
  rw [hb]
  simp only [List.append_assoc]
  exact (List.prefix_append _ _).isInfix

theorem ToLowerByte_fin :
    ∀ n : Fin 128, ToLowerByte (UInt8.ofNat n.val) = [lowerCaseForm (UInt8.ofNat n.val)] := by
  decide!

theorem ofNat_toNat_byte (b : Byte) : UInt8.ofNat b.toNat = b := by
  apply UInt8.ext
  show b.toNat % 256 = b.toNat
  exact Nat.mod_eq_of_lt b.toNat_lt

theorem ToLowerByte_ascii (b : Byte) (h : b < 128) : ToLowerByte b = [lowerCaseForm b] := by
  have hlt : b.toNat < 128 := h
  have hfin := ToLowerByte_fin ⟨b.toNat, hlt⟩
  simpa [ofNat_toNat_byte] using hfin

theorem execService_infix_execServices (p : GoString) {r : service} {rs : List service}
    (h : r ∈ rs) : execService p r <:+: execServices p rs := by
  induction rs with
  | nil => simp at h
  | cons a t ih =>
    rcases List.mem_cons.mp h with rfl | ht
    · exact (List.prefix_append _ _).isInfix
    · exact (ih ht).trans (List.suffix_append _ _).isInfix

theorem execServices_infix_Execute {ctx : tmplContext} {b : GoString} (h : Execute ctx = some b) :
    execServices ctx.TwirpPrefix ctx.Services <:+: b := by
  obtain ⟨cases, _, hb⟩ := Execute_eq_some h
  rw [hb]
  exact List.infix_append _ _ _

theorem pathPrefixConst_infix_execService (p : GoString) (r : service) :
    (lit "export const " ++ r.Name ++ lit "PathPrefix = '" ++ p ++ lit "/" ++ r.Package
      ++ lit "." ++ r.Name ++ lit "/';") <:+: execService p r := by
  have h1 : lit "\nexport const " = lit "\n" ++ lit "export const " := by decide
  have h2 : lit "/';\n\nexport const create" = lit "/';" ++ lit "\n\nexport const create" := by
    decide
  refine ⟨lit "\n", lit "\n\nexport const create" ++ r.Name
    ++ lit " = (baseURL: string): " ++ r.Package ++ lit "." ++ r.Name
    ++ lit " => \x7b\n\tconst axios = Axios.create(\x7b\n        baseURL: baseURL + " ++ r.Name
    ++ lit "PathPrefix,\n        headers: \x7b\n          Accept: 'application/protobuf'\n        \x7d\n    \x7d);\n\n    return "
    ++ r.Package ++ lit "." ++ r.Name
    ++ lit ".create(createTwirpAdapter(axios, getServiceMethodName));\n\x7d;", ?_⟩
  simp only [execService, h1, h2, List.append_assoc]

theorem lowerCamel_isSome {m : GoString} (h : m ≠ []) : ∃ lc, lowerCamel m = some lc := by
  cases m with
  | nil => exact absurd rfl h
  | cons c cs => exact ⟨ToLowerByte c ++ cs, rfl⟩

theorem execMethod_eq_some {s : service} {m out : GoString} (h : execMethod s m = some out) :
    m ≠ [] ∧ out = comparisonText s.Package (s.Name, m) := by
  cases m with
  | nil => simp [execMethod, lowerCamel] at h
  | cons c cs =>
    simp only [execMethod, lowerCamel, Option.some.injEq] at h
    exact ⟨List.cons_ne_nil _ _, by simp [comparisonText, lowerCamel, ← h]⟩

theorem execMethods_eq_some {s : service} {ms : List GoString} {out : GoString}
    (h : execMethods s ms = some out) :
    (∀ m ∈ ms, m ≠ []) ∧
      out = (ms.map (fun m => comparisonText s.Package (s.Name, m))).flatten := by
  induction ms generalizing out with
  | nil =>
    simp only [execMethods, Option.some.injEq] at h
    simp [← h]
  | cons m ms ih =>
    unfold execMethods at h
    cases hm : execMethod s m with
    | none => simp [hm] at h
    | some o1 =>
      cases hr : execMethods s ms with
      | none => simp [hm, hr] at h
      | some rest =>
        simp only [hm, hr, Option.some.injEq] at h
        obtain ⟨hne, ho1⟩ := execMethod_eq_some hm
        obtain ⟨hall, hrest⟩ := ih hr
        refine ⟨?_, ?_⟩
        · intro x hx
          rcases List.mem_cons.mp hx with rfl | hx
          · exact hne
          · exact hall x hx
        · simp [← h, ho1, hrest]

theorem execResolverCases_eq_some {rs : List service} {out : GoString}
    (h : execResolverCases rs = some out) :
    (∀ r ∈ rs, ∀ m ∈ r.Methods, m ≠ []) ∧
      out = (rs.flatMap (fun r =>
        r.Methods.map (fun m => comparisonText r.Package (r.Name, m)))).flatten := by
  induction rs generalizing out with
  | nil =>
    simp only [execResolverCases, Option.some.injEq] at h
    simp [← h]
  | cons r rs ih =>
    unfold execResolverCases at h
    cases hm : execMethods r r.Methods with
    | none => simp [hm] at h
    | some o1 =>
      cases hr : execResolverCases rs with
      | none => simp [hm, hr] at h
      | some rest =>
        simp only [hm, hr, Option.some.injEq] at h
        obtain ⟨hne, ho1⟩ := execMethods_eq_some hm
        obtain ⟨hall, hrest⟩ := ih hr
        refine ⟨?_, ?_⟩
        · intro x hx
          rcases List.mem_cons.mp hx with rfl | hx
          · exact hne
          · exact hall x hx
        · simp [← h, ho1, hrest]

theorem execResolverCases_eq_none_iff (rs : List service) :
    execResolverCases rs = none ↔ ∃ r ∈ rs, ∃ m ∈ r.Methods, m = [] := by
  constructor
  · intro h
    by_contra hno
    have hall : ∀ r ∈ rs, ∀ m ∈ r.Methods, m ≠ [] := by
      intro r hr m hm he
      exact hno ⟨r, hr, m, hm, he⟩
    obtain ⟨out, hout⟩ := execResolverCases_isSome hall
    rw [h] at hout
    exact Option.noConfusion hout
  · rintro ⟨r, hr, m, hm, he⟩
    cases hc : execResolverCases rs with
    | none => rfl
    | some out => exact absurd he ((execResolverCases_eq_some hc).1 r hr m hm)

theorem comparisons_of_services (pkg : GoString) (ss : List ServiceDescriptorProto) :
    (ss.map (serviceOf pkg)).flatMap (fun r =>
        r.Methods.map (fun m => comparisonText r.Package (r.Name, m)))
      = (ss.flatMap (fun s => s.Method.map (fun m => (s.GetName, m.Name.getD [])))).map
          (comparisonText pkg) := by
  induction ss with
  | nil => rfl
  | cons s ss ih =>
    simp only [List.map_cons, List.flatMap_cons, List.map_append, ih]
    simp [serviceOf]

theorem execService_eq_serviceBlock (p : GoString) (r : service) :
    execService p r = serviceBlock p r.Package r.Name := by
  have h1 : lit "\nexport const " = lit "\n" ++ lit "export const " := by decide
  have h2 : lit "/';\n\nexport const create"
      = lit "/';" ++ (lit "\n\n" ++ lit "export const create") := by decide
  simp only [execService, serviceBlock, pathPrefixExport, factoryExport, h1, h2,
    List.append_assoc]

theorem execServices_eq_blocks (p : GoString) (rs : List service) :
    execServices p rs = (rs.map (fun r => serviceBlock p r.Package r.Name)).flatten := by
  induction rs with
  | nil => rfl
  | cons r rs ih => simp [execServices, ih, execService_eq_serviceBlock]

theorem Execute_eq_resolverText {ctx : tmplContext} {b : GoString} (h : Execute ctx = some b) :
    ∃ cases, execResolverCases ctx.Services = some cases ∧
      b = execHeader ctx ++ resolverText cases ++ lit "\n"
        ++ execServices ctx.TwirpPrefix ctx.Services ++ lit "\n" := by
  obtain ⟨cases, hc, hb⟩ := Execute_eq_some h
  have h1 : lit "\n\n    throw new Error('Unknown Method');\n\x7d;\n\n"
      = lit "\n\n    throw new Error('Unknown Method');\n\x7d;\n" ++ lit "\n" := by decide!
  refine ⟨cases, hc, ?_⟩
  rw [hb, h1]
  simp only [resolverText, List.append_assoc]

theorem collectMethods_present {ms : List MethodDescriptorProto} {ns : List GoString}
    (h : collectMethods ms = some ns) : ∀ m ∈ ms, ∃ n, m.Name = some n := by
  induction ms generalizing ns with
  | nil => intro m hm; simp at hm
  | cons a ms ih =>
    unfold collectMethods at h
    cases ha : a.Name with
    | none => simp [ha] at h
    | some n =>
      cases hr : collectMethods ms with
      | none => simp [ha, hr] at h
      | some rest =>
        intro m hm
        rcases List.mem_cons.mp hm with rfl | hm
        · exact ⟨n, ha⟩
        · exact ih hr m hm

theorem collectServices_present {pkg : GoString} {ss : List ServiceDescriptorProto}
    {rs : List service} (h : collectServices pkg ss = some rs) :
    ∀ s ∈ ss, ∀ m ∈ s.Method, ∃ n, m.Name = some n := by
  induction ss generalizing rs with
  | nil => intro s hs; simp at hs
  | cons a ss ih =>
    unfold collectServices at h
    cases ha : collectMethods a.Method with
    | none => simp [ha] at h
    | some ms =>
      cases hr : collectServices pkg ss with
      | none => simp [ha, hr] at h
      | some rest =>
        intro s hs
        rcases List.mem_cons.mp hs with rfl | hs
        · exact collectMethods_present ha
        · exact ih hr s hs

theorem buildContext_present {g : Generator} {d : FileDescriptorProto} {ctx : tmplContext}
    (h : buildContext g d = some ctx) :
    ∀ s ∈ d.Service, ∀ m ∈ s.Method, ∃ n, m.Name = some n := by
  unfold buildContext at h
  simp only [baseName_eq] at h
  cases hs : collectServices d.GetPackage d.Service with
  | none => simp [hs] at h
  | some rs => exact collectServices_present hs

theorem map_some_getD {ms : List MethodDescriptorProto}
    (h : ∀ m ∈ ms, ∃ n, m.Name = some n) :
    (ms.map (fun m => m.Name.getD [])).map some = ms.map (fun m => m.Name) := by
  induction ms with
  | nil => rfl
  | cons a ms ih =>
    obtain ⟨n, hn⟩ := h a (List.mem_cons_self _ _)
    have ih2 := ih (fun x hx => h x (List.mem_cons_of_mem _ hx))
    simp only [List.map_cons, List.map_map] at ih2 ⊢
    rw [ih2, hn]
    rfl

theorem execResolverCases_no_methods {rs : List service} (h : ∀ r ∈ rs, r.Methods = []) :
    execResolverCases rs = some [] := by
  induction rs with
  | nil => rfl
  | cons r rs ih =>
    have hr : r.Methods = [] := h r (List.mem_cons_self _ _)
    have ih2 := ih (fun x hx => h x (List.mem_cons_of_mem _ hx))
    simp [execResolverCases, hr, execMethods, ih2]

theorem Generate_of_cases {g : Generator} {d : FileDescriptorProto} {name : GoString}
    {ctx : tmplContext} {cases : GoString}
    (hn : d.Name = some name) (hts : name ≠ lit "google/protobuf/timestamp.proto")
    (hc : buildContext g d = some ctx) (hcases : execResolverCases ctx.Services = some cases) :
    Generate g d = GenResult.ok
      [{ Name := beforeFirstDot (Base d.GetName) ++ lit ".twirp.ts"
         Content := execHeader ctx ++ resolverText cases ++ lit "\n"
           ++ execServices ctx.TwirpPrefix ctx.Services ++ lit "\n" }] := by
  have he : ∃ b, Execute ctx = some b := by simp [Execute, hcases]
  obtain ⟨b, hb⟩ := he
  obtain ⟨cases2, hc2, hb2⟩ := Execute_eq_resolverText hb
  rw [hcases] at hc2
  have hcc : cases = cases2 := Option.some.inj hc2
  rw [Generate_not_skipped hn hts, hc]
  simp only [hb, hb2, hcc]

theorem Generate_error_iff {g : Generator} {d : FileDescriptorProto} {name : GoString}
    {ctx : tmplContext}
    (hn : d.Name = some name) (hts : name ≠ lit "google/protobuf/timestamp.proto")
    (hc : buildContext g d = some ctx) :
    Generate g d = GenResult.error ↔ execResolverCases ctx.Services = none := by
  rw [Generate_not_skipped hn hts, hc]
  cases hcases : execResolverCases ctx.Services with
  | none => simp [Execute, hcases]
  | some cases => simp [Execute, hcases]

theorem execHeader_prefix_Execute {ctx : tmplContext} {b : GoString} (h : Execute ctx = some b) :
    execHeader ctx <+: b := by
  obtain ⟨cases, _, hb⟩ := Execute_eq_some h
  rw [hb]
  simp only [List.append_assoc]
  exact List.prefix_append _ _

theorem execHeader_lines (ctx : tmplContext) :
    (lit "// Generated by protoc-gen-twirp_typescript. DO NOT EDIT\n"
      ++ (lit "import " ++ pbjsImport ctx.Package ++ lit " from './" ++ ctx.ImportPath
        ++ lit ".pb';\n")) <+: execHeader ctx := by
  have h1 : lit "// Generated by protoc-gen-twirp_typescript. DO NOT EDIT\nimport "
      = lit "// Generated by protoc-gen-twirp_typescript. DO NOT EDIT\n" ++ lit "import " := by
    decide!
  have h2 : lit ".pb';\nimport \x7bcreateTwirpAdapter\x7d from 'pbjs-twirp';\nimport Axios from 'axios';\n\n"
      = lit ".pb';\n" ++ lit "import \x7bcreateTwirpAdapter\x7d from 'pbjs-twirp';\nimport Axios from 'axios';\n\n" := by
    decide!
  refine ⟨lit "import \x7bcreateTwirpAdapter\x7d from 'pbjs-twirp';\nimport Axios from 'axios';\n\n", ?_⟩
  simp only [execHeader, h1, h2, List.append_assoc]

theorem comparisonText_infix_of_lowerCamel (pkg sname m lc : GoString)
    (h : lowerCamel m = some lc) :
    (lit "if (fn === " ++ pkg ++ lit "." ++ sname ++ lit ".prototype." ++ lc
      ++ lit ") \x7b\n\t\treturn '" ++ m ++ lit "';\n    \x7d") <:+: comparisonText pkg (sname, m) := by
  have h1 : lit "\n\tif (fn === " = lit "\n\t" ++ lit "if (fn === " := by decide
  refine ⟨lit "\n\t", [], ?_⟩
  simp only [comparisonText, h, Option.getD_some, h1, List.append_assoc, List.append_nil]

theorem cases_infix_content {ctx : tmplContext} {b cases : GoString}
    (h : Execute ctx = some b) (hcases : execResolverCases ctx.Services = some cases) :
    cases <:+: b := by
  obtain ⟨cases2, hc2, hb⟩ := Execute_eq_some h
  rw [hcases] at hc2
  have hcc : cases = cases2 := Option.some.inj hc2
  rw [hb, hcc]
  refine ⟨execHeader ctx ++ lit "const getServiceMethodName = (fn: any): string => \x7b",
    lit "\n\n    throw new Error('Unknown Method');\n\x7d;\n\n"
      ++ execServices ctx.TwirpPrefix ctx.Services ++ lit "\n", ?_⟩
  simp only [List.append_assoc]

theorem comparisonTarget_ascii (r : service) (c : Byte) (rest : GoString) (hc : c < 128) :
    comparisonTarget r (c :: rest)
      = some (r.Package ++ lit "." ++ r.Name ++ lit ".prototype." ++ lowerCaseForm c :: rest) := by
  simp [comparisonTarget, lowerCamel, ToLowerByte_ascii c hc]

theorem beginsWithASCII_cons {m : GoString} (h : beginsWithASCII m = true) :
    ∃ c rest, m = c :: rest ∧ c < 128 := by
  cases m with
  | nil => simp [beginsWithASCII] at h
  | cons c rest => exact ⟨c, rest, rfl, by simpa [beginsWithASCII] using h⟩

theorem comparisonTarget_eq_iff (r : service) {a b : GoString}
    (ha : beginsWithASCII a = true) (hb : beginsWithASCII b = true) :
    comparisonTarget r a = comparisonTarget r b ↔ sameUpToInitialCase a b := by
  obtain ⟨c1, r1, rfl, h1⟩ := beginsWithASCII_cons ha
  obtain ⟨c2, r2, rfl, h2⟩ := beginsWithASCII_cons hb
  rw [comparisonTarget_ascii r c1 r1 h1, comparisonTarget_ascii r c2 r2 h2]
  simp [sameUpToInitialCase]

theorem execMethod_eq_of_target {r : service} {m t : GoString}
    (h : comparisonTarget r m = some t) :
    execMethod r m
      = some (lit "\n\tif (fn === " ++ t ++ lit ") \x7b\n\t\treturn '" ++ m ++ lit "';\n    \x7d") := by
  cases m with
  | nil => simp [comparisonTarget, lowerCamel] at h
  | cons c cs =>
    simp only [comparisonTarget, lowerCamel, Option.some.injEq] at h
    simp [execMethod, lowerCamel, ← h]

/-! ## The claims -/

set_option maxRecDepth 10000

/-- C1. A descriptor whose source path is `google/protobuf/timestamp.proto` is
skipped: for every generator (every protocol version) `Generate` returns the
empty list of files and no error, whatever the package, services and methods
of the descriptor are. -/
theorem generate_timestamp_skipped (g : Generator) (d : FileDescriptorProto)
    (h : d.Name = some (lit "google/protobuf/timestamp.proto")) :
    Generate g d = GenResult.ok [] := by
  simp [Generate, h]

theorem generate_timestamp_skipped_witness :
    timestampFile.Name = some (lit "google/protobuf/timestamp.proto") ∧
      Generate (NewGenerator (lit "v5")) timestampFile = GenResult.ok [] :=
  ⟨rfl, generate_timestamp_skipped (NewGenerator (lit "v5")) timestampFile rfl⟩

/-- C2, as stated, fails: the descriptor `a.proto` is not the Timestamp file,
yet with a method whose name is the empty string `Generate` returns an error
and no file. -/
theorem generate_empty_method_name_error :
    emptyMethodFile.Name = some (lit "a.proto") ∧
      lit "a.proto" ≠ lit "google/protobuf/timestamp.proto" ∧
      Generate (NewGenerator (lit "v6")) emptyMethodFile = GenResult.error :=
  ⟨rfl, by decide, by rfl⟩

/-- C2, amended. For every descriptor whose source path is present and is not
the Timestamp path and in which every method has a name that is present and
not empty, and for every protocol version, `Generate` returns no error and a
list of exactly one file; the services are arbitrary (there may be none). -/
theorem generate_one_file (g : Generator) (d : FileDescriptorProto) (name : GoString)
    (hn : d.Name = some name) (hts : name ≠ lit "google/protobuf/timestamp.proto")
    (hm : ∀ s ∈ d.Service, ∀ m ∈ s.Method, ∃ n, m.Name = some n ∧ n ≠ []) :
    ∃ f, Generate g d = GenResult.ok [f] := by
  obtain ⟨ctx, hctx⟩ := buildContext_isSome g d
    (fun s hs m hmem => (hm s hs m hmem).imp (fun _ h => h.1))
  have hshape := buildContext_eq_some hctx
  have hne : ∀ r ∈ ctx.Services, ∀ m ∈ r.Methods, m ≠ [] := by
    intro r hr m hmem
    rw [hshape] at hr
    simp only [List.mem_map] at hr
    obtain ⟨s, hs, rfl⟩ := hr
    simp only [serviceOf, List.mem_map] at hmem
    obtain ⟨md, hmd, rfl⟩ := hmem
    obtain ⟨n, hn1, hn2⟩ := hm s hs md hmd
    simpa [hn1] using hn2
  obtain ⟨cases, hcases⟩ := execResolverCases_isSome hne
  rw [Generate_not_skipped hn hts, hctx]
  simp [Execute, hcases]

theorem generate_one_file_witness :
    (∃ f, Generate (NewGenerator (lit "v5")) greeterFile = GenResult.ok [f]) ∧
      (∃ f, Generate (NewGenerator (lit "v5")) twoDotFile = GenResult.ok [f]) :=
  ⟨generate_one_file (NewGenerator (lit "v5")) greeterFile (lit "service.proto") rfl (by decide)
      (by
        intro s hs m hmem
        simp only [greeterFile, List.mem_singleton] at hs
        subst hs
        simp only [List.mem_singleton] at hmem
        subst hmem
        exact ⟨lit "SayHello", rfl, by decide⟩),
   generate_one_file (NewGenerator (lit "v5")) twoDotFile (lit "a.b.proto") rfl (by decide)
      (by simp [twoDotFile])⟩

/-- C3, as stated, fails: for the source name `a.b.proto` removing the final
extension leaves `a.b`, so the claim gives the name `a.b.twirp.ts`, but the
generated file is named `a.twirp.ts`. -/
theorem generate_two_dot_name :
    withoutFinalExtension (lit "a.b.proto") ++ lit ".twirp.ts" = lit "a.b.twirp.ts" ∧
      ∃ f, Generate (NewGenerator (lit "v6")) twoDotFile = GenResult.ok [f] ∧
        f.Name = lit "a.twirp.ts" ∧
        f.Name ≠ withoutFinalExtension (lit "a.b.proto") ++ lit ".twirp.ts" :=
  ⟨by rfl, ⟨⟨lit "a.twirp.ts", _⟩, by rfl, by rfl, by decide⟩⟩

/-- C3, amended. For every descriptor whose source path is not the Timestamp
path, every file that `Generate` returns is named `baseName` followed by
`".twirp.ts"`, where `baseName` is the final path segment of the source name
with everything from its first `"."` on removed. -/
theorem generate_file_name (g : Generator) (d : FileDescriptorProto) (name : GoString)
    (fs : List CodeGeneratorResponse_File)
    (hn : d.Name = some name) (hts : name ≠ lit "google/protobuf/timestamp.proto")
    (h : Generate g d = GenResult.ok fs) :
    ∀ f ∈ fs, f.Name = beforeFirstDot (Base name) ++ lit ".twirp.ts" := by
  obtain ⟨ctx, b, _, _, hfs⟩ := Generate_ok_one hn hts h
  intro f hf
  have hname : d.GetName = name := by simp [FileDescriptorProto.GetName, hn]
  rw [hfs, List.mem_singleton] at hf
  rw [hf, hname]

theorem generate_file_name_witness :
    Generate (NewGenerator (lit "v6")) greeterFile = GenResult.ok [greeterOutputV6] ∧
      greeterOutputV6.Name = lit "service.twirp.ts" ∧
      beforeFirstDot (Base (lit "service.proto")) ++ lit ".twirp.ts" = lit "service.twirp.ts" :=
  ⟨by decide!, by rfl,
    (generate_file_name (NewGenerator (lit "v6")) greeterFile (lit "service.proto")
      [greeterOutputV6] rfl (by decide) (by decide!) greeterOutputV6
      (List.mem_singleton.mpr rfl)).symm⟩

/-- The result of `pbjsImport` on the empty package is not the empty string
that the fallback `return ""` of the function would give. -/
theorem pbjsImport_empty_ne : pbjsImport (lit "") ≠ lit "" := by
  decide

/-- C4. The code at the failing input: `pbjsImport` applied to the empty
package string returns the empty pair of braces `"{}"`, not the empty string
`""` that the claim states and that the function's own fallback `return ""`
is written for. Splitting the empty string gives the one part `""`, so the
guard `len(parts) > 0` holds and the fallback is never reached. -/
theorem pbjsImport_empty :
    Split (lit "") dot = [lit ""] ∧
      pbjsImport (lit "") = lit "\x7b\x7d" ∧
      pbjsImport (lit "") ≠ lit "" :=
  ⟨by rfl, by rfl, by decide⟩

/-- C5. For every non-empty package string `p`, `pbjsImport p` is `"{"`,
then the part of `p` before its first `"."` (all of `p` when it has none),
then `"}"`. -/
theorem pbjsImport_first_segment (p : GoString) (_hp : p ≠ []) :
    ∃ seg rest, p = seg ++ rest ∧ dot ∉ seg ∧ (rest = [] ∨ ∃ r, rest = dot :: r) ∧
      seg = beforeFirstDot p ∧
      pbjsImport p = lit "\x7b" ++ seg ++ lit "\x7d" := by
  obtain ⟨rest, h1, h2, h3⟩ := beforeFirstDot_spec p
  exact ⟨beforeFirstDot p, rest, h1, h2, h3, rfl, pbjsImport_eq p⟩

theorem pbjsImport_first_segment_witness :
    lit "foo.bar.baz" ≠ [] ∧
      ∃ seg rest, lit "foo.bar.baz" = seg ++ rest ∧ dot ∉ seg ∧
        (rest = [] ∨ ∃ r, rest = dot :: r) ∧ seg = beforeFirstDot (lit "foo.bar.baz") ∧
        pbjsImport (lit "foo.bar.baz") = lit "\x7b" ++ seg ++ lit "\x7d" :=
  ⟨by decide, pbjsImport_first_segment (lit "foo.bar.baz") (by decide)⟩

/-- The two examples of C5: `foo.bar` and `foo.bar.baz` both give `{foo}`, and
a package without `"."` is taken whole. -/
theorem pbjsImport_examples :
    pbjsImport (lit "foo.bar") = lit "\x7bfoo\x7d" ∧
      pbjsImport (lit "foo.bar.baz") = lit "\x7bfoo\x7d" ∧
      pbjsImport (lit "foo") = lit "\x7bfoo\x7d" :=
  ⟨by rfl, by rfl, by rfl⟩

/-- C6. For every descriptor, `baseName` is the final path segment of the
source file name (`filepath.Base`) truncated at its first `"."`: what is
returned has no `"."`, and what was cut off is empty or starts with `"."`.
For a source name `seg` or `dir/seg` with `seg` not empty and free of `"/"`
the final path segment is `seg`. So `dir/a.b.proto` gives `a`, and a segment
without `"."` is returned whole. -/
theorem baseName_truncates :
    (∀ d : FileDescriptorProto, ∃ rest,
        baseName d = some (beforeFirstDot (Base d.GetName)) ∧
        Base d.GetName = beforeFirstDot (Base d.GetName) ++ rest ∧
        dot ∉ beforeFirstDot (Base d.GetName) ∧
        (rest = [] ∨ ∃ r, rest = dot :: r)) ∧
      (∀ (d : FileDescriptorProto) (dir seg : GoString), seg ≠ [] → slash ∉ seg →
        d.GetName = seg ∨ d.GetName = dir ++ slash :: seg →
        baseName d = some (beforeFirstDot seg)) ∧
      (∀ (d : FileDescriptorProto) (dir seg : GoString), seg ≠ [] → slash ∉ seg → dot ∉ seg →
        d.GetName = seg ∨ d.GetName = dir ++ slash :: seg →
        baseName d = some seg) ∧
      baseName { Name := some (lit "dir/a.b.proto"), Package := none, Service := [] }
        = some (lit "a") ∧
      baseName { Name := some (lit "dir/Makefile"), Package := none, Service := [] }
        = some (lit "Makefile") := by
  have hseg : ∀ (d : FileDescriptorProto) (dir seg : GoString), seg ≠ [] → slash ∉ seg →
      d.GetName = seg ∨ d.GetName = dir ++ slash :: seg →
      baseName d = some (beforeFirstDot seg) := by
    intro d dir seg hne hs hname
    have hb := Base_segment dir seg hne hs
    rw [baseName_eq]
    rcases hname with h | h
    · rw [h, hb.1]
    · rw [h, hb.2]
  refine ⟨?_, hseg, ?_, by rfl, by rfl⟩
  · intro d
    obtain ⟨rest, h1, h2, h3⟩ := beforeFirstDot_spec (Base d.GetName)
    exact ⟨rest, baseName_eq d, h1, h2, h3⟩
  · intro d dir seg hne hs hd hname
    rw [hseg d dir seg hne hs hname]
    have hall : ∀ b ∈ seg, (b != dot) = true := by
      intro b hb
      simp only [bne_iff_ne, ne_eq]
      rintro rfl
      exact hd hb
    have h : (seg ++ []).takeWhile (fun b => b != dot)
        = seg ++ ([] : GoString).takeWhile (fun b => b != dot) :=
      List.takeWhile_append_of_pos hall
    simp only [List.append_nil, List.takeWhile_nil] at h
    simp only [beforeFirstDot, h]

/-- C7. For every descriptor, `outFile` is `baseName` of the same descriptor
followed by `".twirp.ts"`; hence a generated file is named after the same base
name that the import `from './<importPath>.pb'` in its content uses. -/
theorem outFile_eq_baseName (d : FileDescriptorProto) :
    ∃ b, baseName d = some b ∧ outFile d = some (b ++ lit ".twirp.ts") ∧
      ∀ (g : Generator) (f : CodeGeneratorResponse_File), Generate g d = GenResult.ok [f] →
        f.Name = b ++ lit ".twirp.ts" ∧
        (lit "from './" ++ b ++ lit ".pb';") <:+: f.Content := by
  refine ⟨beforeFirstDot (Base d.GetName), baseName_eq d, outFile_eq d, ?_⟩
  intro g f h
  obtain ⟨ctx, b, hc, he, hf⟩ := Generate_ok_singleton h
  have hctx := buildContext_eq_some hc
  have hi := execHeader_import_infix ctx
  have hip : ctx.ImportPath = beforeFirstDot (Base d.GetName) := by rw [hctx]
  rw [hip] at hi
  rw [hf]
  exact ⟨rfl, hi.trans (execHeader_infix_Execute he)⟩

/-- C8. For every non-empty ASCII string `s` (every byte below `0x80`),
`lowerCamel` returns a string of the same length whose first byte is the
lower-case form of the first byte of `s` and whose remaining bytes are those
of `s`, unchanged. -/
theorem lowerCamel_ascii (s : GoString) (hne : s ≠ []) (hascii : ∀ b ∈ s, b < 128) :
    ∃ r, lowerCamel s = some r ∧ r.length = s.length ∧
      r.head? = s.head?.map lowerCaseForm ∧ r.tail = s.tail := by
  cases s with
  | nil => exact absurd rfl hne
  | cons c cs =>
    have hc : ToLowerByte c = [lowerCaseForm c] :=
      ToLowerByte_ascii c (hascii c (List.mem_cons_self _ _))
    exact ⟨lowerCaseForm c :: cs, by simp [lowerCamel, hc], rfl, rfl, rfl⟩

theorem lowerCamel_ascii_witness :
    lowerCamel (lit "CreateUser") = some (lit "createUser") ∧
      ∃ r, lowerCamel (lit "CreateUser") = some r ∧ r.length = (lit "CreateUser").length ∧
        r.head? = (lit "CreateUser").head?.map lowerCaseForm ∧ r.tail = (lit "CreateUser").tail :=
  ⟨by rfl, lowerCamel_ascii (lit "CreateUser") (by decide) (by decide)⟩

/-- C9. For every protocol version `v`, the `TwirpPrefix` of the template
context is `""` when `v` is `"v6"` and `"/twirp"` for every other `v`; there
is no third value. -/
theorem twirpPrefix_two_valued (v : GoString) (d : FileDescriptorProto) (ctx : tmplContext)
    (h : buildContext (NewGenerator v) d = some ctx) :
    (v = lit "v6" → ctx.TwirpPrefix = lit "") ∧
      (v ≠ lit "v6" → ctx.TwirpPrefix = lit "/twirp") ∧
      (ctx.TwirpPrefix = lit "" ∨ ctx.TwirpPrefix = lit "/twirp") := by
  have hctx := buildContext_eq_some h
  have hp : ctx.TwirpPrefix = if v = lit "v6" then lit "" else lit "/twirp" := by
    rw [hctx]
    rfl
  by_cases hv : v = lit "v6"
  · simp [hp, hv]
  · simp [hp, hv]

theorem twirpPrefix_two_valued_witness :
    buildContext (NewGenerator (lit "V6")) greeterFile = some (greeterContext (lit "/twirp")) ∧
      (lit "V6" = lit "v6" → (greeterContext (lit "/twirp")).TwirpPrefix = lit "") ∧
      (lit "V6" ≠ lit "v6" → (greeterContext (lit "/twirp")).TwirpPrefix = lit "/twirp") ∧
      ((greeterContext (lit "/twirp")).TwirpPrefix = lit "" ∨
        (greeterContext (lit "/twirp")).TwirpPrefix = lit "/twirp") :=
  ⟨by decide!,
   twirpPrefix_two_valued (lit "V6") greeterFile (greeterContext (lit "/twirp")) (by decide!)⟩

/-- The versions named in C9, on the descriptor `greeterFile`: only `"v6"`
gives the empty prefix. -/
theorem twirpPrefix_examples :
    buildContext (NewGenerator (lit "v6")) greeterFile = some (greeterContext (lit "")) ∧
      buildContext (NewGenerator (lit "v5")) greeterFile = some (greeterContext (lit "/twirp")) ∧
      buildContext (NewGenerator (lit "")) greeterFile = some (greeterContext (lit "/twirp")) ∧
      buildContext (NewGenerator (lit "V6")) greeterFile = some (greeterContext (lit "/twirp")) ∧
      buildContext (NewGenerator (lit "v7")) greeterFile = some (greeterContext (lit "/twirp")) :=
  ⟨by decide!, by decide!, by decide!, by decide!, by decide!⟩

/-- C10. For every file that `Generate` returns and every service `S` of the
descriptor with package `P`, the content contains the text
`export const <S>PathPrefix = '<prefix>/<P>.<S>/';` where `<prefix>` is the
path prefix of the configured version (`""` for `"v6"`, `"/twirp"`
otherwise). -/
theorem generate_path_prefix_constant (g : Generator) (d : FileDescriptorProto)
    (f : CodeGeneratorResponse_File) (h : Generate g d = GenResult.ok [f]) :
    ∀ s ∈ d.Service,
      (lit "export const " ++ s.GetName ++ lit "PathPrefix = '"
        ++ (if g.twirpVersion = lit "v6" then lit "" else lit "/twirp") ++ lit "/"
        ++ d.GetPackage ++ lit "." ++ s.GetName ++ lit "/';") <:+: f.Content := by
  intro s hs
  obtain ⟨ctx, b, hc, he, hf⟩ := Generate_ok_singleton h
  have hctx := buildContext_eq_some hc
  have hmem : serviceOf d.GetPackage s ∈ ctx.Services := by
    rw [hctx]
    exact List.mem_map_of_mem _ hs
  have hp : ctx.TwirpPrefix = if g.twirpVersion = lit "v6" then lit "" else lit "/twirp" := by
    rw [hctx]
    rfl
  have h1 := pathPrefixConst_infix_execService ctx.TwirpPrefix (serviceOf d.GetPackage s)
  have h2 := execService_infix_execServices ctx.TwirpPrefix hmem
  have h3 := execServices_infix_Execute he
  have h4 := h1.trans (h2.trans h3)
  rw [hp] at h4
  rw [hf]
  exact h4

theorem generate_path_prefix_constant_witness :
    (Generate (NewGenerator (lit "v6")) greeterFile = GenResult.ok [greeterOutputV6] ∧
      greeterOutputV6.Name = lit "service.twirp.ts" ∧
      lit "export const GreeterPathPrefix = '/example.api.Greeter/';"
        <:+: greeterOutputV6.Content) ∧
    (Generate (NewGenerator (lit "v5")) greeterFile = GenResult.ok [greeterOutputV5] ∧
      greeterOutputV5.Name = lit "service.twirp.ts" ∧
      lit "export const GreeterPathPrefix = '/twirp/example.api.Greeter/';"
        <:+: greeterOutputV5.Content) :=
  ⟨⟨by decide!, by rfl,
      generate_path_prefix_constant (NewGenerator (lit "v6")) greeterFile greeterOutputV6
        (by decide!) { Name := some (lit "Greeter"), Method := [{ Name := some (lit "SayHello") }] }
        (List.mem_singleton.mpr rfl)⟩,
   ⟨by decide!, by rfl,
      generate_path_prefix_constant (NewGenerator (lit "v5")) greeterFile greeterOutputV5
        (by decide!) { Name := some (lit "Greeter"), Method := [{ Name := some (lit "SayHello") }] }
        (List.mem_singleton.mpr rfl)⟩⟩

/-- C11. For every file that `Generate` returns, the body of the resolver
`getServiceMethodName` is the concatenation of one comparison per
(service, method) pair of the descriptor, the pairs taken service by service
in declaration order and, within a service, method by method in declaration
order: the i-th comparison is the one of the i-th pair. The number of
comparisons is the total number of methods, and every method name is present
and has a lower-camel form. -/
theorem resolver_comparisons_in_order (g : Generator) (d : FileDescriptorProto)
    (f : CodeGeneratorResponse_File) (h : Generate g d = GenResult.ok [f]) :
    ∃ ctx, buildContext g d = some ctx ∧
      f.Content = execHeader ctx
        ++ resolverText ((methodPairs d).map (comparisonText d.GetPackage)).flatten
        ++ lit "\n" ++ execServices ctx.TwirpPrefix ctx.Services ++ lit "\n" ∧
      ((methodPairs d).map (comparisonText d.GetPackage)).length
        = (d.Service.map (fun s => s.Method.length)).sum ∧
      (∀ s ∈ d.Service, ∀ m ∈ s.Method, ∃ n lc, m.Name = some n ∧ lowerCamel n = some lc) := by
  obtain ⟨ctx, b, hc, he, hf⟩ := Generate_ok_singleton h
  obtain ⟨cases, hcases, hb⟩ := Execute_eq_resolverText he
  obtain ⟨hne, hout⟩ := execResolverCases_eq_some hcases
  have hctx := buildContext_eq_some hc
  have hsv : ctx.Services = d.Service.map (serviceOf d.GetPackage) := by rw [hctx]
  refine ⟨ctx, hc, ?_, ?_, ?_⟩
  · rw [hf]
    show b = _
    rw [hb, hout, hsv, comparisons_of_services]
    rfl
  · simp [methodPairs, List.length_flatMap, Function.comp_def]
  · intro s hs m hm
    obtain ⟨n, hn⟩ := buildContext_present hc s hs m hm
    have hmem : serviceOf d.GetPackage s ∈ ctx.Services := by
      rw [hsv]
      exact List.mem_map_of_mem _ hs
    have hn2 : n ∈ (serviceOf d.GetPackage s).Methods := by
      simp only [serviceOf, List.mem_map]
      exact ⟨m, hm, by simp [hn]⟩
    obtain ⟨lc, hlc⟩ := lowerCamel_isSome (hne _ hmem n hn2)
    exact ⟨n, lc, hn, hlc⟩

theorem resolver_comparisons_in_order_witness :
    Generate (NewGenerator (lit "v5")) orderFile = GenResult.ok [orderOutput] ∧
      methodPairs orderFile
        = [(lit "A", lit "X"), (lit "A", lit "Y"), (lit "B", lit "Z")] ∧
      (methodPairs orderFile).map (comparisonText orderFile.GetPackage)
        = [lit "\n\tif (fn === demo.A.prototype.x) \x7b\n\t\treturn 'X';\n    \x7d",
           lit "\n\tif (fn === demo.A.prototype.y) \x7b\n\t\treturn 'Y';\n    \x7d",
           lit "\n\tif (fn === demo.B.prototype.z) \x7b\n\t\treturn 'Z';\n    \x7d"] ∧
      ∃ ctx, buildContext (NewGenerator (lit "v5")) orderFile = some ctx ∧
        orderOutput.Content = execHeader ctx
          ++ resolverText
            ((methodPairs orderFile).map (comparisonText orderFile.GetPackage)).flatten
          ++ lit "\n" ++ execServices ctx.TwirpPrefix ctx.Services ++ lit "\n" ∧
        ((methodPairs orderFile).map (comparisonText orderFile.GetPackage)).length
          = (orderFile.Service.map (fun s => s.Method.length)).sum ∧
        (∀ s ∈ orderFile.Service, ∀ m ∈ s.Method,
          ∃ n lc, m.Name = some n ∧ lowerCamel n = some lc) :=
  ⟨by decide!, by decide!, by decide!,
   resolver_comparisons_in_order (NewGenerator (lit "v5")) orderFile orderOutput (by decide!)⟩

/-- C12. When the template context of a descriptor is assembled, its list of
services has the length of the descriptor's list of services, and its i-th
record has the name of the i-th declared service, the names of that service's
methods in declaration order (same length, same order, duplicates kept) and
the package of the file. -/
theorem context_services (g : Generator) (d : FileDescriptorProto) (ctx : tmplContext)
    (h : buildContext g d = some ctx) :
    ctx.Services.length = d.Service.length ∧
      ∀ (i : Nat) (s : ServiceDescriptorProto), d.Service[i]? = some s →
        ∃ r, ctx.Services[i]? = some r ∧ r.Name = s.GetName ∧
          r.Methods.map some = s.Method.map (fun m => m.Name) ∧
          r.Methods.length = s.Method.length ∧
          r.Package = d.GetPackage := by
  have hctx := buildContext_eq_some h
  have hsv : ctx.Services = d.Service.map (serviceOf d.GetPackage) := by rw [hctx]
  refine ⟨by simp [hsv], ?_⟩
  intro i s hi
  have hs : s ∈ d.Service := List.getElem?_mem hi
  refine ⟨serviceOf d.GetPackage s, by simp [hsv, hi], rfl, ?_, by simp [serviceOf], rfl⟩
  exact map_some_getD (buildContext_present h s hs)

theorem context_services_witness :
    buildContext (NewGenerator (lit "v5")) orderFile = some orderContext ∧
      orderContext.Services.length = orderFile.Service.length ∧
      ∀ (i : Nat) (s : ServiceDescriptorProto), orderFile.Service[i]? = some s →
        ∃ r, orderContext.Services[i]? = some r ∧ r.Name = s.GetName ∧
          r.Methods.map some = s.Method.map (fun m => m.Name) ∧
          r.Methods.length = s.Method.length ∧
          r.Package = orderFile.GetPackage :=
  ⟨by decide!, context_services (NewGenerator (lit "v5")) orderFile orderContext (by decide!)⟩

/-- C13, as stated, fails: the descriptor of the source file
`if (fn ===.proto` has no service, hence no method, and is not skipped, yet
the text `if (fn ===` occurs in the generated content, in the import of
`./if (fn ===.pb`. -/
theorem generate_needle_in_content :
    needleFile.Name = some (lit "if (fn ===.proto") ∧
      lit "if (fn ===.proto" ≠ lit "google/protobuf/timestamp.proto" ∧
      (∀ s ∈ needleFile.Service, s.Method = []) ∧
      Generate (NewGenerator (lit "v6")) needleFile = GenResult.ok [needleOutput] ∧
      lit "if (fn ===" <:+: needleOutput.Content :=
  ⟨rfl, by decide, by decide, by decide!, by decide!⟩

/-- C13, amended. For every descriptor that is not skipped and in which every
service has zero methods (there may be no service), generation succeeds and
the resolver `getServiceMethodName` has no comparison: its text is exactly the
opening line, an empty line, the statement that throws
`Error('Unknown Method')` and the closing `};`, and the text `if (fn ===` does
not occur in it. -/
theorem resolver_without_methods (g : Generator) (d : FileDescriptorProto) (name : GoString)
    (hn : d.Name = some name) (hts : name ≠ lit "google/protobuf/timestamp.proto")
    (hz : ∀ s ∈ d.Service, s.Method = []) :
    ∃ f ctx, Generate g d = GenResult.ok [f] ∧ buildContext g d = some ctx ∧
      f.Content = execHeader ctx ++ resolverText [] ++ lit "\n"
        ++ execServices ctx.TwirpPrefix ctx.Services ++ lit "\n" ∧
      resolverText [] = lit "const getServiceMethodName = (fn: any): string => \x7b\n\n    throw new Error('Unknown Method');\n\x7d;\n" ∧
      ¬ (lit "if (fn ===" <:+: resolverText []) := by
  have hpres : ∀ s ∈ d.Service, ∀ m ∈ s.Method, ∃ n, m.Name = some n := by
    intro s hs m hm
    rw [hz s hs] at hm
    simp at hm
  obtain ⟨ctx, hc⟩ := buildContext_isSome g d hpres
  have hctx := buildContext_eq_some hc
  have hnone : ∀ r ∈ ctx.Services, r.Methods = [] := by
    intro r hr
    rw [hctx] at hr
    simp only [List.mem_map] at hr
    obtain ⟨s, hs, rfl⟩ := hr
    simp [serviceOf, hz s hs]
  have hcases := execResolverCases_no_methods hnone
  exact ⟨_, ctx, Generate_of_cases hn hts hc hcases, hc, rfl, by decide!, by decide!⟩

theorem resolver_without_methods_witness :
    Generate (NewGenerator (lit "v6")) needleFile = GenResult.ok [needleOutput] ∧
      ∃ f ctx, Generate (NewGenerator (lit "v6")) needleFile = GenResult.ok [f] ∧
        buildContext (NewGenerator (lit "v6")) needleFile = some ctx ∧
        f.Content = execHeader ctx ++ resolverText [] ++ lit "\n"
          ++ execServices ctx.TwirpPrefix ctx.Services ++ lit "\n" ∧
        resolverText [] = lit "const getServiceMethodName = (fn: any): string => \x7b\n\n    throw new Error('Unknown Method');\n\x7d;\n" ∧
        ¬ (lit "if (fn ===" <:+: resolverText []) :=
  ⟨by decide!,
   resolver_without_methods (NewGenerator (lit "v6")) needleFile (lit "if (fn ===.proto") rfl
     (by decide) (by decide)⟩

/-- C14. For every file that `Generate` returns, the content begins with the
line `// Generated by protoc-gen-twirp_typescript. DO NOT EDIT` followed
immediately by the line `import <pbjsImport package> from './<baseName>.pb';`. -/
theorem content_begins_with_header (g : Generator) (d : FileDescriptorProto)
    (f : CodeGeneratorResponse_File) (h : Generate g d = GenResult.ok [f]) :
    ∃ b, baseName d = some b ∧
      (lit "// Generated by protoc-gen-twirp_typescript. DO NOT EDIT\n"
        ++ (lit "import " ++ pbjsImport d.GetPackage ++ lit " from './" ++ b
          ++ lit ".pb';\n")) <+: f.Content := by
  obtain ⟨ctx, b, hc, he, hf⟩ := Generate_ok_singleton h
  have hctx := buildContext_eq_some hc
  have hl := execHeader_lines ctx
  have hp : ctx.Package = d.GetPackage := by rw [hctx]
  have hi : ctx.ImportPath = beforeFirstDot (Base d.GetName) := by rw [hctx]
  rw [hp, hi] at hl
  refine ⟨beforeFirstDot (Base d.GetName), baseName_eq d, ?_⟩
  rw [hf]
  exact hl.trans (execHeader_prefix_Execute he)

theorem content_begins_with_header_witness :
    Generate (NewGenerator (lit "v6")) greeterFile = GenResult.ok [greeterOutputV6] ∧
      lit "// Generated by protoc-gen-twirp_typescript. DO NOT EDIT\nimport \x7bexample\x7d from './service.pb';\n"
        <+: greeterOutputV6.Content ∧
      ∃ b, baseName greeterFile = some b ∧
        (lit "// Generated by protoc-gen-twirp_typescript. DO NOT EDIT\n"
          ++ (lit "import " ++ pbjsImport greeterFile.GetPackage ++ lit " from './" ++ b
            ++ lit ".pb';\n")) <+: greeterOutputV6.Content :=
  ⟨by decide!, by decide!,
   content_begins_with_header (NewGenerator (lit "v6")) greeterFile greeterOutputV6 (by decide!)⟩

/-- C15. For every file that `Generate` returns, the content after the
resolver function (and the empty line that follows it) is the concatenation,
in the declaration order of the descriptor's services, of one block per
service `S`, and ends with one line break. A block is the export of the
constant `<S>PathPrefix` followed by the export of the factory
`create<S> = (baseURL: string)`, whose client uses
`baseURL + <S>PathPrefix` and the header `Accept: 'application/protobuf'`.
A descriptor with `n` services yields `n` blocks. -/
theorem service_blocks_after_resolver (g : Generator) (d : FileDescriptorProto)
    (f : CodeGeneratorResponse_File) (h : Generate g d = GenResult.ok [f]) :
    ∃ ctx cases, buildContext g d = some ctx ∧
      execResolverCases ctx.Services = some cases ∧
      f.Content = execHeader ctx ++ resolverText cases ++ lit "\n"
        ++ (d.Service.map (fun s =>
              serviceBlock (if g.twirpVersion = lit "v6" then lit "" else lit "/twirp")
                d.GetPackage s.GetName)).flatten
        ++ lit "\n" ∧
      (d.Service.map (fun s =>
          serviceBlock (if g.twirpVersion = lit "v6" then lit "" else lit "/twirp")
            d.GetPackage s.GetName)).length = d.Service.length := by
  obtain ⟨ctx, b, hc, he, hf⟩ := Generate_ok_singleton h
  obtain ⟨cases, hcases, hb⟩ := Execute_eq_resolverText he
  have hctx := buildContext_eq_some hc
  have hsv : ctx.Services = d.Service.map (serviceOf d.GetPackage) := by rw [hctx]
  have hp : ctx.TwirpPrefix = if g.twirpVersion = lit "v6" then lit "" else lit "/twirp" := by
    rw [hctx]
    rfl
  refine ⟨ctx, cases, hc, hcases, ?_, by simp⟩
  rw [hf]
  show b = _
  rw [hb, execServices_eq_blocks, hsv, hp, List.map_map]
  rfl

theorem service_blocks_after_resolver_witness :
    Generate (NewGenerator (lit "v5")) orderFile = GenResult.ok [orderOutput] ∧
      orderFile.Service.map (fun s => serviceBlock (lit "/twirp") orderFile.GetPackage s.GetName)
        = [serviceBlock (lit "/twirp") (lit "demo") (lit "A"),
           serviceBlock (lit "/twirp") (lit "demo") (lit "B")] ∧
      pathPrefixExport (lit "/twirp") (lit "demo") (lit "A")
        = lit "export const APathPrefix = '/twirp/demo.A/';" ∧
      ∃ ctx cases, buildContext (NewGenerator (lit "v5")) orderFile = some ctx ∧
        execResolverCases ctx.Services = some cases ∧
        orderOutput.Content = execHeader ctx ++ resolverText cases ++ lit "\n"
          ++ (orderFile.Service.map (fun s =>
                serviceBlock
                  (if (NewGenerator (lit "v5")).twirpVersion = lit "v6" then lit ""
                    else lit "/twirp")
                  orderFile.GetPackage s.GetName)).flatten
          ++ lit "\n" ∧
        (orderFile.Service.map (fun s =>
            serviceBlock
              (if (NewGenerator (lit "v5")).twirpVersion = lit "v6" then lit ""
                else lit "/twirp")
              orderFile.GetPackage s.GetName)).length = orderFile.Service.length :=
  ⟨by decide!, by decide!, by decide!,
   service_blocks_after_resolver (NewGenerator (lit "v5")) orderFile orderOutput (by decide!)⟩

/-- C16. For every file that `Generate` returns and every method `M` of every
service `S` of the descriptor with package `P`, the content has the
comparison `if (fn === <P>.<S>.prototype.<lowerCamel M>) {` guarding the
statement `return '<M>';`: the compared property is the lower-camel form of
the name, the returned string is the name as declared. -/
theorem resolver_comparison_text (g : Generator) (d : FileDescriptorProto)
    (f : CodeGeneratorResponse_File) (h : Generate g d = GenResult.ok [f]) :
    ∀ s ∈ d.Service, ∀ m ∈ s.Method, ∃ M lc, m.Name = some M ∧ lowerCamel M = some lc ∧
      (lit "if (fn === " ++ d.GetPackage ++ lit "." ++ s.GetName ++ lit ".prototype." ++ lc
        ++ lit ") \x7b\n\t\treturn '" ++ M ++ lit "';\n    \x7d") <:+: f.Content := by
  intro s hs m hm
  obtain ⟨ctx, b, hc, he, hf⟩ := Generate_ok_singleton h
  obtain ⟨cases, hcases, _⟩ := Execute_eq_some he
  obtain ⟨hne, hout⟩ := execResolverCases_eq_some hcases
  have hctx := buildContext_eq_some hc
  have hsv : ctx.Services = d.Service.map (serviceOf d.GetPackage) := by rw [hctx]
  obtain ⟨M, hM⟩ := buildContext_present hc s hs m hm
  have hmem : serviceOf d.GetPackage s ∈ ctx.Services := by
    rw [hsv]
    exact List.mem_map_of_mem _ hs
  have hM2 : M ∈ (serviceOf d.GetPackage s).Methods := by
    simp only [serviceOf, List.mem_map]
    exact ⟨m, hm, by simp [hM]⟩
  obtain ⟨lc, hlc⟩ := lowerCamel_isSome (hne _ hmem M hM2)
  refine ⟨M, lc, hM, hlc, ?_⟩
  have h1 := comparisonText_infix_of_lowerCamel d.GetPackage s.GetName M lc hlc
  have h2 : comparisonText d.GetPackage (s.GetName, M) <:+: cases := by
    rw [hout]
    apply List.infix_of_mem_flatten
    simp only [List.mem_flatMap, List.mem_map]
    exact ⟨serviceOf d.GetPackage s, hmem, M, hM2, rfl⟩
  have h3 := cases_infix_content he hcases
  rw [hf]
  exact h1.trans (h2.trans h3)

theorem resolver_comparison_text_witness :
    Generate (NewGenerator (lit "v6")) greeterFile = GenResult.ok [greeterOutputV6] ∧
      lit "if (fn === example.api.Greeter.prototype.sayHello) \x7b\n\t\treturn 'SayHello';\n    \x7d"
        <:+: greeterOutputV6.Content ∧
      ∀ s ∈ greeterFile.Service, ∀ m ∈ s.Method,
        ∃ M lc, m.Name = some M ∧ lowerCamel M = some lc ∧
          (lit "if (fn === " ++ greeterFile.GetPackage ++ lit "." ++ s.GetName
            ++ lit ".prototype." ++ lc ++ lit ") \x7b\n\t\treturn '" ++ M
            ++ lit "';\n    \x7d") <:+: greeterOutputV6.Content :=
  ⟨by decide!, by decide!,
   resolver_comparison_text (NewGenerator (lit "v6")) greeterFile greeterOutputV6 (by decide!)⟩

/-- C17, as stated, fails: the method names `Foo` and `foo` of the service `S`
are distinct and not empty, yet both comparisons have the target
`p.S.prototype.foo`; the generated resolver compares `fn` with that target
twice, returning `'Foo'` the first time and `'foo'` the second. -/
theorem comparison_targets_collide :
    caseService.Methods = [lit "Foo", lit "foo"] ∧
      caseService.Methods.Nodup ∧
      (∀ m ∈ caseService.Methods, m ≠ []) ∧
      comparisonTarget caseService (lit "Foo") = some (lit "p.S.prototype.foo") ∧
      comparisonTarget caseService (lit "foo") = some (lit "p.S.prototype.foo") ∧
      ¬ (caseService.Methods.map (comparisonTarget caseService)).Nodup ∧
      Generate (NewGenerator (lit "v6")) caseFile = GenResult.ok [caseOutput] ∧
      lit "if (fn === p.S.prototype.foo) \x7b\n\t\treturn 'Foo';" <:+: caseOutput.Content ∧
      lit "if (fn === p.S.prototype.foo) \x7b\n\t\treturn 'foo';" <:+: caseOutput.Content :=
  ⟨rfl, by decide, by decide, by decide, by decide, by decide, by decide!, by decide!,
   by decide!⟩

/-- C17, amended. For every service whose declared method names are not
empty and begin with an ASCII character, every method has a comparison target
`<P>.<S>.prototype.<lowerCamel M>`, and the targets of the service are pairwise
distinct exactly when no two of its method names agree up to the case of
their first character. -/
theorem comparison_targets_distinct (r : service)
    (hascii : ∀ m ∈ r.Methods, beginsWithASCII m = true) :
    (∀ m ∈ r.Methods, ∃ t, comparisonTarget r m = some t ∧
        execMethod r m = some (lit "\n\tif (fn === " ++ t ++ lit ") \x7b\n\t\treturn '" ++ m
          ++ lit "';\n    \x7d")) ∧
      ((r.Methods.map (comparisonTarget r)).Nodup ↔
        r.Methods.Pairwise (fun a b => ¬ sameUpToInitialCase a b)) := by
  constructor
  · intro m hm
    obtain ⟨c, rest, rfl, hc⟩ := beginsWithASCII_cons (hascii m hm)
    have ht := comparisonTarget_ascii r c rest hc
    exact ⟨_, ht, execMethod_eq_of_target ht⟩
  · unfold List.Nodup
    rw [List.pairwise_map]
    apply List.Pairwise.iff_of_mem
    intro a b ha hb
    exact not_congr (comparisonTarget_eq_iff r (hascii a ha) (hascii b hb))

theorem comparison_targets_distinct_witness :
    (∀ m ∈ [lit "SayHello", lit "sayGoodbye", lit "Hello"], beginsWithASCII m = true) ∧
      [lit "SayHello", lit "sayGoodbye", lit "Hello"].Pairwise
        (fun a b => ¬ sameUpToInitialCase a b) ∧
      (([lit "SayHello", lit "sayGoodbye", lit "Hello"].map
          (comparisonTarget
            { Name := lit "Greeter", Methods := [lit "SayHello", lit "sayGoodbye", lit "Hello"],
              Package := lit "example.api" })).Nodup) :=
  ⟨by decide, by decide,
   (comparison_targets_distinct
      { Name := lit "Greeter", Methods := [lit "SayHello", lit "sayGoodbye", lit "Hello"],
        Package := lit "example.api" }
      (by decide)).2.mpr (by decide)⟩

/-- C18. For every descriptor whose source path is present and is not the
Timestamp path and whose method names are all present, `Generate` returns an
error (and no file) if and only if some method of some service has the empty
string as its name; when it does not return an error it returns one file. -/
theorem generate_error_iff_empty_method_name (g : Generator) (d : FileDescriptorProto)
    (name : GoString)
    (hn : d.Name = some name) (hts : name ≠ lit "google/protobuf/timestamp.proto")
    (hm : ∀ s ∈ d.Service, ∀ m ∈ s.Method, ∃ n, m.Name = some n) :
    (Generate g d = GenResult.error ↔ ∃ s ∈ d.Service, ∃ m ∈ s.Method, m.Name = some []) ∧
      (Generate g d ≠ GenResult.error → ∃ f, Generate g d = GenResult.ok [f]) := by
  obtain ⟨ctx, hc⟩ := buildContext_isSome g d hm
  have hctx := buildContext_eq_some hc
  have hsv : ctx.Services = d.Service.map (serviceOf d.GetPackage) := by rw [hctx]
  have hiff := Generate_error_iff hn hts hc
  have hempty : (∃ r ∈ ctx.Services, ∃ m ∈ r.Methods, m = []) ↔
      ∃ s ∈ d.Service, ∃ m ∈ s.Method, m.Name = some [] := by
    rw [hsv]
    constructor
    · rintro ⟨r, hr, m, hmem, rfl⟩
      simp only [List.mem_map] at hr
      obtain ⟨s, hs, rfl⟩ := hr
      simp only [serviceOf, List.mem_map] at hmem
      obtain ⟨md, hmd, hnil⟩ := hmem
      obtain ⟨n, hn2⟩ := hm s hs md hmd
      refine ⟨s, hs, md, hmd, ?_⟩
      rw [hn2] at hnil ⊢
      simp only [Option.getD_some] at hnil
      rw [hnil]
    · rintro ⟨s, hs, md, hmd, hnil⟩
      refine ⟨serviceOf d.GetPackage s, List.mem_map_of_mem _ hs, [], ?_, rfl⟩
      simp only [serviceOf, List.mem_map]
      exact ⟨md, hmd, by simp [hnil]⟩
  refine ⟨?_, ?_⟩
  · rw [hiff, execResolverCases_eq_none_iff, hempty]
  · intro hne
    cases hcases : execResolverCases ctx.Services with
    | none => exact absurd (hiff.mpr hcases) hne
    | some cases => exact ⟨_, Generate_of_cases hn hts hc hcases⟩

theorem generate_error_iff_empty_method_name_witness :
    Generate (NewGenerator (lit "v5")) emptyMethodFile = GenResult.error ∧
      (∃ s ∈ emptyMethodFile.Service, ∃ m ∈ s.Method, m.Name = some []) ∧
      ((Generate (NewGenerator (lit "v5")) emptyMethodFile = GenResult.error ↔
          ∃ s ∈ emptyMethodFile.Service, ∃ m ∈ s.Method, m.Name = some []) ∧
        (Generate (NewGenerator (lit "v5")) emptyMethodFile ≠ GenResult.error →
          ∃ f, Generate (NewGenerator (lit "v5")) emptyMethodFile = GenResult.ok [f])) :=
  ⟨by decide!, by decide,
   generate_error_iff_empty_method_name (NewGenerator (lit "v5")) emptyMethodFile (lit "a.proto")
     rfl (by decide)
     (by
       intro s hs m hm
       simp only [emptyMethodFile, List.mem_singleton] at hs
       subst hs
       simp only [List.mem_singleton] at hm
       subst hm
       exact ⟨lit "", rfl⟩)⟩

/-- C19. For every descriptor, `baseName` has no `"."`; so the name of the
generated file has exactly two `"."`, those of the suffix `".twirp.ts"`, and
the import specifier `./<baseName>.pb` has exactly the `"."` of `"./"` and the
one of `".pb"`, none between them. -/
theorem baseName_no_dot (d : FileDescriptorProto) :
    ∃ b, baseName d = some b ∧ dot ∉ b ∧
      outFile d = some (b ++ lit ".twirp.ts") ∧
      (b ++ lit ".twirp.ts").count dot = 2 ∧
      (lit "./" ++ b ++ lit ".pb").count dot = 2 ∧
      ∀ (g : Generator) (f : CodeGeneratorResponse_File),
        Generate g d = GenResult.ok [f] → f.Name.count dot = 2 := by
  obtain ⟨rest, _, hnd, _⟩ := beforeFirstDot_spec (Base d.GetName)
  have h0 : (beforeFirstDot (Base d.GetName)).count dot = 0 := List.count_eq_zero_of_not_mem hnd
  have h1 : (lit ".twirp.ts").count dot = 2 := by decide
  have h2 : (lit "./").count dot = 1 := by decide
  have h3 : (lit ".pb").count dot = 1 := by decide
  refine ⟨beforeFirstDot (Base d.GetName), baseName_eq d, hnd, outFile_eq d, ?_, ?_, ?_⟩
  · rw [List.count_append, h0, h1]
  · rw [List.count_append, List.count_append, h0, h2, h3]
  · intro g f h
    obtain ⟨ctx, b, _, _, hf⟩ := Generate_ok_singleton h
    rw [hf]
    show (beforeFirstDot (Base d.GetName) ++ lit ".twirp.ts").count dot = 2
    rw [List.count_append, h0, h1]

end Pbjs
